import Mathlib

unseal Rat.add Rat.mul Rat.sub Rat.inv

/-!
Verification development for the PaperGen two-column exam-paper layout
engine (`src/paper_generators/base_generator.py`, `mcq_generator.py`,
`enhanced_mcq_generator.py`, `src/enhanced_mcq_paper_builder.py`).

The pdf backend (fpdf) is modelled as a Canvas capability:
`get_string_width` is an abstract width function of (font family, font
style, font size, text); `multi_cell` wraps text with the same greedy
word-wrap simulation that `estimate_text_height` performs (the spec's
TextMetrics contract) and advances the cursor line by line; `cell` and
each `multi_cell` line perform fpdf's automatic page-break check (the
repository enables `set_auto_page_break(auto=True, margin=15)` in
`BasePaperGenerator.__init__`, so a cell whose top `y` satisfies
`y + h > page_height - 15` is emitted at `y = 20` on a fresh page, the
subsequent-page header having reset the cursor to `(10, 20)`).

All lengths are in mm, represented as rationals.
-/

namespace PaperGen

/-- Font families loaded by `BasePaperGenerator._initialize_fonts`. -/
inductive FontFamily where
  | noto
  | stinger
  | arialUni
  deriving DecidableEq, Repr

/-- fpdf font styles used by the generators ('' / 'B' / 'I'). -/
inductive FontStyle where
  | regular
  | bold
  | italic
  deriving DecidableEq, Repr

/-- The Canvas width-query primitive `get_string_width` after `set_font`:
a width, in mm, for a string rendered in a (family, style, size). -/
abbrev WidthFn := FontFamily → FontStyle → ℕ → String → ℚ

/-- Column side (`self.current_side`), `'left'` or `'right'`. -/
inductive Side where
  | left
  | right
  deriving DecidableEq, Repr

/-- Helper for `pyWords`: scan the characters, accumulating the current
word; whitespace ends a word (runs of whitespace emit nothing). -/
def splitWordsAux : List Char → List Char → List String
  | [], acc => if acc = [] then [] else [String.mk acc]
  | c :: cs, acc =>
    if c.isWhitespace then
      (if acc = [] then [] else [String.mk acc]) ++ splitWordsAux cs []
    else splitWordsAux cs (acc ++ [c])

/-- Python `text.split()` with no separator argument: split on runs of
whitespace, never producing empty pieces. -/
def pyWords (text : String) : List String :=
  splitWordsAux text.data []

/-- One step of the greedy word-wrap loop of
`BasePaperGenerator.estimate_text_height` (identical override in
`MCQPaperGenerator.estimate_text_height`): state is
`(lines, current_line)`. -/
def wrapStep (ws : String → ℚ) (width : ℚ) : ℕ × String → String → ℕ × String :=
  fun st word =>
    let test := if st.2 = "" then word else st.2 ++ " " ++ word
    if ws test > width then (st.1 + 1, word) else (st.1, test)

/-- Line count computed by `estimate_text_height`'s loop: start at
`lines = 1`, `current_line = ''`, fold `wrapStep` over the words. -/
def wrapLines (ws : String → ℚ) (width : ℚ) (text : String) : ℕ :=
  ((pyWords text).foldl (wrapStep ws width) (1, "")).1

/-- Layout configuration derived from `PaperStyles` (`font_sizes` and
`spacing` for a size tier) and the fpdf page format. -/
structure Config where
  pageW : ℚ
  pageH : ℚ
  lineHeight : ℚ
  optionColumnGap : ℚ
  questionNumberWidth : ℚ
  columnSpacing : ℚ
  beforeSection : ℚ
  afterSectionName : ℚ
  afterDescription : ℚ
  questionSize : ℕ
  optionSize : ℕ
  optionLabelSize : ℕ
  questionNumberSize : ℕ
  sectionNameSize : ℕ
  sectionDescSize : ℕ
  deriving DecidableEq, Repr

/-- `BasePaperGenerator.MIN_FOOTER_BUFFER`. -/
def MIN_FOOTER_BUFFER : ℚ := 12

/-- `self._column_width = (self.w/2) - self.config.spacing['column_spacing']`. -/
def columnWidth (cfg : Config) : ℚ := cfg.pageW / 2 - cfg.columnSpacing

/-- `self._question_width = self._column_width - question_number_width - 1`. -/
def questionWidth (cfg : Config) : ℚ :=
  columnWidth cfg - cfg.questionNumberWidth - 1

/-- `self._options_width = self._column_width - question_number_width - 3`. -/
def optionsWidth (cfg : Config) : ℚ :=
  columnWidth cfg - cfg.questionNumberWidth - 3

/-- The shipped default: `size_config='medium'`, A4 portrait
(210mm × 297mm), values from `PaperStyles.FONT_SIZE_CONFIGS['medium']`
and `PaperStyles.SPACING_CONFIGS['medium']`. -/
def medA4 : Config where
  pageW := 210
  pageH := 297
  lineHeight := 5
  optionColumnGap := 4
  questionNumberWidth := 10
  columnSpacing := 15
  beforeSection := 6
  afterSectionName := 2
  afterDescription := 4
  questionSize := 13
  optionSize := 13
  optionLabelSize := 10
  questionNumberSize := 11
  sectionNameSize := 15
  sectionDescSize := 13

/-- `estimate_text_height(text, width, font_size)`: sets font
`('Noto', '', font_size)` and returns `lines * line_height` from the
greedy wrap loop. -/
def estimate_text_height (cfg : Config) (wf : WidthFn)
    (text : String) (width : ℚ) (fontSize : ℕ) : ℚ :=
  (wrapLines (wf FontFamily.noto FontStyle.regular fontSize) width text : ℚ) *
    cfg.lineHeight

/-- Python truthiness of an optional string argument
(`if reasoning and self.show_answers`): `None` and `''` are falsy. -/
def truthy : Option String → Bool
  | none => false
  | some s => s ≠ ""

/-- `MCQPaperGenerator.measure_option_width`: cached string width of
`"A. " + option_text` in `('ArialUni', '', font_sizes['option'])`. -/
def measure_option_width (cfg : Config) (wf : WidthFn) (optionText : String) : ℚ :=
  wf FontFamily.arialUni FontStyle.regular cfg.optionSize ("A. " ++ optionText)

/-- `MCQPaperGenerator.can_fit_two_options` (same arithmetic as
`BasePaperGenerator.can_fit_two_options`):
`width1 + width2 + option_column_gap <= self._options_width`. -/
def can_fit_two_options (cfg : Config) (wf : WidthFn) (o1 o2 : String) : Bool :=
  decide (measure_option_width cfg wf o1 + measure_option_width cfg wf o2 +
    cfg.optionColumnGap ≤ optionsWidth cfg)

/-- The choices part of `MCQPaperGenerator.measure_question_height`
(lines 576-608): walk the choices two at a time with
`can_fit_two_options`; a side-by-side pair contributes
`max(est("A. "+c1), est("B. "+c2))` at width `options_width/2 - 1`
plus `0.1`; a single full-width choice contributes
`est("A. "+c)` at `options_width` plus `0.1` plus `0.5`. -/
def measureChoicesHeight (cfg : Config) (wf : WidthFn) : List String → ℚ
  | [] => 0
  | c :: rest =>
    let half := optionsWidth cfg / 2 - 1
    match rest with
    | [] =>
        estimate_text_height cfg wf ("A. " ++ c) (optionsWidth cfg) cfg.optionSize +
          1/10 + 1/2
    | c2 :: rest2 =>
        if can_fit_two_options cfg wf c c2 then
          (max (estimate_text_height cfg wf ("A. " ++ c) half cfg.optionSize)
               (estimate_text_height cfg wf ("B. " ++ c2) half cfg.optionSize) +
            1/10) + measureChoicesHeight cfg wf rest2
        else
          (estimate_text_height cfg wf ("A. " ++ c) (optionsWidth cfg) cfg.optionSize +
            1/10 + 1/2) + measureChoicesHeight cfg wf (c2 :: rest2)

/-- `MCQPaperGenerator.measure_question_height(question_text, choices,
reasoning)`: question-text height at `_question_width` + 1, plus the
choices height, plus (answer-key mode with a truthy reasoning)
`est("Explanation: "+reasoning)` + 7, plus the 2-unit safety buffer. -/
def measure_question_height (cfg : Config) (wf : WidthFn) (showAnswers : Bool)
    (questionText : String) (choices : List String) (reasoning : Option String) : ℚ :=
  estimate_text_height cfg wf questionText (questionWidth cfg) cfg.questionSize + 1 +
    measureChoicesHeight cfg wf choices +
    (if truthy reasoning ∧ showAnswers then
      estimate_text_height cfg wf ("Explanation: " ++ reasoning.getD "")
        (optionsWidth cfg) cfg.optionSize + 7
    else 0) + 2

/-- Mutable render state of one pass: fpdf page number (`page_no()`),
`current_side`, cursor `y`, and `first_page_offset` (set by the first
page header; reset to 0 by `_draw_subsequent_page_header`). -/
structure St where
  page : ℕ
  side : Side
  y : ℚ
  fpo : ℚ
  deriving DecidableEq, Repr

/-- `set_y` / the y-component of `set_xy`: move the cursor, keeping
page, side and first-page offset. -/
def setY (st : St) (v : ℚ) : St := ⟨st.page, st.side, v, st.fpo⟩

/-- fpdf's automatic page-break trigger: `page_height - b_margin`, with
`set_auto_page_break(auto=True, margin=15)`. -/
def breakTrigger (cfg : Config) : ℚ := cfg.pageH - 15

/-- fpdf `cell`/`multi_cell` line entry check: if `y + h` would pass the
trigger, a page is added (the subsequent-page header leaves the cursor
at `y = 20` and `first_page_offset = 0`) and the cell is drawn there. -/
def cellBreak (cfg : Config) (st : St) (h : ℚ) : St :=
  if st.y + h > breakTrigger cfg then
    { page := st.page + 1, side := st.side, y := 20, fpo := 0 }
  else st

/-- What a question draw emits, for tracking where content lands. -/
inductive ElemKind where
  | questionNumber
  | questionText
  | optionLabel
  | optionText
  | explanationLabel
  | explanationText
  | sectionName
  | sectionDescription
  deriving DecidableEq, Repr

/-- One drawn cell/text block: which page it was emitted on, the column
side the renderer believed it was in, and its position. -/
structure Elem where
  kind : ElemKind
  page : ℕ
  side : Side
  x : ℚ
  y : ℚ
  deriving DecidableEq, Repr

/-- fpdf `multi_cell` line loop: each of the `n` wrapped lines runs the
page-break check, is emitted at the (possibly reset) cursor, and
advances `y` by the line height. -/
def multiCellGo (cfg : Config) (kind : ElemKind) (x h : ℚ) :
    ℕ → St → St × List Elem
  | 0, st => (st, [])
  | n + 1, st =>
    let st1 := cellBreak cfg st h
    let e : Elem := ⟨kind, st1.page, st1.side, x, st1.y⟩
    let r := multiCellGo cfg kind x h n (setY st1 (st1.y + h))
    (r.1, e :: r.2)

/-- Canvas `multi_cell(width, h, text)` starting at position `(x, y)` in
a given font: wraps with the TextMetrics simulation (spec §6: the draw
primitive wraps consistently with `estimate_text_height`) and draws the
lines with fpdf's auto-break rule. -/
def multiCell (cfg : Config) (wf : WidthFn) (fam : FontFamily) (sty : FontStyle)
    (size : ℕ) (kind : ElemKind) (st : St) (x width h : ℚ) (text : String) :
    St × List Elem :=
  multiCellGo cfg kind x h (wrapLines (wf fam sty size) width text) st

/-- `MCQPaperGenerator._write_single_option(label, option_text, x, y,
width)`: `set_xy(x, y)`; label `cell(5, line_height, label)` (ln=0, so
fpdf's break check applies but the cursor does not advance);
`set_xy(x + 5, y)`; option text `multi_cell(width - 5 + 1, line_height,
option_text)` in `('ArialUni', 'B' if marked answer else '', option)`
with `" *"` appended when it is the marked answer in answer mode;
returns `get_y() - y`. -/
def writeSingleOption (cfg : Config) (wf : WidthFn) (showAnswers : Bool)
    (st : St) (x y width : ℚ) (optionText : String) (isAnswer : Bool) :
    St × List Elem × ℚ :=
  let stL := cellBreak cfg (setY st y) cfg.lineHeight
  let eL : Elem := ⟨ElemKind.optionLabel, stL.page, stL.side, x, stL.y⟩
  let text := if isAnswer ∧ showAnswers then optionText ++ " *" else optionText
  let sty := if isAnswer ∧ showAnswers then FontStyle.bold else FontStyle.regular
  let res := multiCell cfg wf FontFamily.arialUni sty cfg.optionSize
    ElemKind.optionText (setY stL y) (x + 5) (width - 5 + 1)
    cfg.lineHeight text
  (res.1, eL :: res.2, res.1.y - y)

/-- The option loop of `MCQPaperGenerator.add_question` (lines 515-547):
while options remain, pair the next two side by side at
`(options_width - gap)/2` each when `can_fit_two_options` holds
(advancing the running `current_y` by `max` of the two heights plus 1),
else write one full-width option (advancing by its height plus 1).
`i` is the option index (labels `A.`, `B.`, ...; `is_answer` compares
`i` to `correct_answer_index`). Returns the canvas state, the emitted
elements and the final running `current_y`. -/
def renderChoicesGo (cfg : Config) (wf : WidthFn) (showAnswers : Bool)
    (correctIdx : Option ℕ) (xOpts : ℚ) :
    List String → ℕ → St → ℚ → St × List Elem × ℚ
  | [], _, st, cy => (st, [], cy)
  | c :: rest, i, st, cy =>
    match rest with
    | c2 :: rest2 =>
      if can_fit_two_options cfg wf c c2 then
        let half := (optionsWidth cfg - cfg.optionColumnGap) / 2
        let r1 := writeSingleOption cfg wf showAnswers st xOpts cy
          half c (correctIdx = some i)
        let r2 := writeSingleOption cfg wf showAnswers r1.1
          (xOpts + half + cfg.optionColumnGap) cy half c2 (correctIdx = some (i + 1))
        let r3 := renderChoicesGo cfg wf showAnswers correctIdx xOpts
          rest2 (i + 2) r2.1 (cy + max r1.2.2 r2.2.2 + 1)
        (r3.1, r1.2.1 ++ r2.2.1 ++ r3.2.1, r3.2.2)
      else
        let r1 := writeSingleOption cfg wf showAnswers st xOpts cy
          (optionsWidth cfg) c (correctIdx = some i)
        let r2 := renderChoicesGo cfg wf showAnswers correctIdx xOpts
          (c2 :: rest2) (i + 1) r1.1 (cy + r1.2.2 + 1)
        (r2.1, r1.2.1 ++ r2.2.1, r2.2.2)
    | [] =>
        let r1 := writeSingleOption cfg wf showAnswers st xOpts cy
          (optionsWidth cfg) c (correctIdx = some i)
        (r1.1, r1.2.1, cy + r1.2.2 + 1)

/-- The drawing phase of `MCQPaperGenerator.add_question` (lines
496-562), entered once the placement check has succeeded: question
number cell (h = 5) at `(x_start, start_y)`; question text
`multi_cell(_question_width)` in `('ArialUni', 'I', question)` at
`(x_start + question_number_width + 1, start_y)`; the option loop from
`current_y = get_y() + 1` at `options_x = question_x + 2`; in
answer-key mode with truthy reasoning, an `Explanation:` label cell and
the reasoning `multi_cell(_options_width)`; finally
`set_y(current_y + 1)`. -/
def drawQuestion (cfg : Config) (wf : WidthFn) (showAnswers : Bool) (st : St)
    (questionText : String) (choices : List String) (correctIdx : Option ℕ)
    (reasoning : Option String) : St × List Elem :=
  let xStart : ℚ := if st.side = Side.left then 10 else cfg.pageW / 2 + 2
  let y0 := st.y
  let stN := cellBreak cfg (setY st y0) 5
  let eNum : Elem := ⟨ElemKind.questionNumber, stN.page, stN.side, xStart, stN.y⟩
  let qx := xStart + cfg.questionNumberWidth + 1
  let rQ := multiCell cfg wf FontFamily.arialUni FontStyle.italic
    cfg.questionSize ElemKind.questionText (setY stN y0) qx
    (questionWidth cfg) cfg.lineHeight questionText
  let cy0 := rQ.1.y + 1
  let xOpts := qx + 2
  let rC := renderChoicesGo cfg wf showAnswers correctIdx xOpts
    choices 0 rQ.1 cy0
  if truthy reasoning ∧ showAnswers then
    let cy2 := rC.2.2 + 1
    let stRL := cellBreak cfg (setY rC.1 cy2) 5
    let eRL : Elem := ⟨ElemKind.explanationLabel, stRL.page, stRL.side, xOpts, stRL.y⟩
    let rR := multiCell cfg wf FontFamily.arialUni FontStyle.regular
      cfg.optionSize ElemKind.explanationText (setY stRL (cy2 + 5)) xOpts
      (optionsWidth cfg) cfg.lineHeight (reasoning.getD "")
    let cy3 := rR.1.y + 2
    (setY rR.1 (cy3 + 1), eNum :: rQ.2 ++ rC.2.1 ++ (eRL :: rR.2))
  else
    (setY rC.1 (rC.2.2 + 1), eNum :: rQ.2 ++ rC.2.1)

/-- Top offset of a fresh column: `first_page_offset + 5` on page 1,
else 20 (`right_column_start` in `add_question`,
`check_and_adjust_position` and `_move_to_next_position`). -/
def rightColumnStart (st : St) : ℚ := if st.page = 1 then st.fpo + 5 else 20

/-- The placement recursion of `MCQPaperGenerator.add_question` (lines
459-494; `EnhancedMCQPaperGenerator.add_question` lines 917-941 repeat
it verbatim): with `total = needed_height + 5` and
`effective_page_height = h - (MIN_FOOTER_BUFFER + 5)`, draw in place if
`total <= effective_page_height - y`; otherwise move to the right
column top when on the left and the right column's full space suffices,
else `add_page()` to a fresh left column at `y = 20`, and re-invoke.
The Python recursion has no bound; `fuel` makes the recursion a total
function, with `none` meaning the Python call never reaches a draw. -/
def placeQuestion (cfg : Config) : ℕ → St → ℚ → Option St
  | fuel, st, total =>
    let effH := cfg.pageH - (MIN_FOOTER_BUFFER + 5)
    if total ≤ effH - st.y then some st
    else
      match fuel with
      | 0 => none
      | fuel + 1 =>
        let st' :=
          if st.side = Side.left ∧ total ≤ effH - rightColumnStart st then
            { page := st.page, side := Side.right, y := rightColumnStart st,
              fpo := st.fpo }
          else
            { page := st.page + 1, side := Side.left, y := 20, fpo := 0 }
        placeQuestion cfg fuel st' total

/-- `MCQPaperGenerator.add_question`: measure, add the 5-unit safety
buffer, run the placement recursion, then draw. `none` when the Python
recursion never terminates. -/
def addQuestion (cfg : Config) (wf : WidthFn) (showAnswers : Bool) (fuel : ℕ)
    (st : St) (questionText : String) (choices : List String)
    (correctIdx : Option ℕ) (reasoning : Option String) :
    Option (List Elem × St) :=
  let total :=
    measure_question_height cfg wf showAnswers questionText choices reasoning + 5
  (placeQuestion cfg fuel st total).map fun stP =>
    let r := drawQuestion cfg wf showAnswers stP questionText choices
      correctIdx reasoning
    (r.2, r.1)

/-- `BasePaperGenerator.add_section(section_name, description,
next_question_height)` (lines 175-259): estimate the header height
(name at `_column_width` plus `after_section_name`, description at
`_column_width - question_number_width - 1` plus `after_description`,
both with `estimate_text_height`), treat header + next question as one
unit against `h - (MIN_FOOTER_BUFFER + 3)`, reposition to the right
column top or a fresh page when it does not fit (applying
`before_section` spacing only when staying mid-column), then draw the
name (`multi_cell`, centered) and description (`multi_cell`, indented
by `question_number_width + 1`) with their trailing `ln` spacings. -/
def addSection (cfg : Config) (wf : WidthFn) (st : St)
    (sectionName description : String) (nextQuestionHeight : ℚ) :
    St × List Elem :=
  let sectionNameHeight :=
    estimate_text_height cfg wf sectionName (columnWidth cfg) cfg.sectionNameSize +
      cfg.afterSectionName
  let descriptionWidth := columnWidth cfg - cfg.questionNumberWidth - 1
  let descriptionHeight :=
    estimate_text_height cfg wf description descriptionWidth cfg.sectionDescSize +
      cfg.afterDescription
  let sectionHeight := sectionNameHeight + descriptionHeight
  let totalNeeded := sectionHeight + nextQuestionHeight
  let effH := cfg.pageH - (MIN_FOOTER_BUFFER + 3)
  let top : ℚ := if st.page = 1 then st.fpo + 5 else 20
  let cy := if st.y > top then st.y + cfg.beforeSection else st.y
  let st1 : St :=
    if cy + totalNeeded > effH then
      if st.side = Side.left then
        if rightColumnStart st + totalNeeded > effH then
          { page := st.page + 1, side := Side.left, y := 20, fpo := 0 }
        else
          { page := st.page, side := Side.right, y := rightColumnStart st,
            fpo := st.fpo }
      else { page := st.page + 1, side := Side.left, y := 20, fpo := 0 }
    else setY st cy
  let xStart : ℚ := if st1.side = Side.left then 10 else cfg.pageW / 2 + 2
  let rN := multiCell cfg wf FontFamily.noto FontStyle.bold
    cfg.sectionNameSize ElemKind.sectionName st1 xStart (columnWidth cfg)
    cfg.lineHeight sectionName
  let stN' := setY rN.1 (rN.1.y + cfg.afterSectionName)
  let rD := multiCell cfg wf FontFamily.noto FontStyle.italic
    cfg.sectionDescSize ElemKind.sectionDescription stN'
    (xStart + cfg.questionNumberWidth + 1) descriptionWidth cfg.lineHeight
    description
  (setY rD.1 (rD.1.y + cfg.afterDescription), rN.2 ++ rD.2)

/-- The per-section first-question path of
`MCQPaperGenerator.generate_from_sections` (lines 679-697): measure the
first question, `add_section` with that height, then `add_question` for
the first question with no further position adjustment in between. -/
def generateFirstUnit (cfg : Config) (wf : WidthFn) (showAnswers : Bool)
    (fuel : ℕ) (st : St) (sectionName description : String)
    (questionText : String) (choices : List String) (correctIdx : Option ℕ)
    (reasoning : Option String) : Option (List Elem × List Elem × St) :=
  let firstQuestionHeight :=
    measure_question_height cfg wf showAnswers questionText choices reasoning
  let rS := addSection cfg wf st sectionName description firstQuestionHeight
  (addQuestion cfg wf showAnswers fuel rS.1 questionText choices correctIdx
    reasoning).map fun q => (rS.2, q.1, q.2)

/-- One question of the input data shape (§6): stem text, choice
strings, the answer (matching a choice's text), optional reasoning. -/
structure Question where
  question : String
  choices : List String
  answer : String
  reasoning : Option String
  deriving DecidableEq, Repr

instance : Inhabited Question := ⟨⟨"", [], "", none⟩⟩

/-- A validated `SectionConfig`: name, description, questions,
`required_questions`, `marks_per_question`. -/
structure SectionCfg where
  name : String
  description : String
  questions : List Question
  required : ℕ
  marksPerQuestion : ℕ
  deriving Repr

/-- `section.questions[:section.required_questions]`. -/
def selectedQuestions (s : SectionCfg) : List Question :=
  s.questions.take s.required

/-- Marks accumulated by the remaining-questions loop of
`MCQPaperGenerator.generate_from_sections` (lines 700-734): starting
from `current_idx = 1`, each iteration renders one question and adds
`marks_per_question`, so the loop runs once per question after the
first. -/
def mcqRemainingMarks (marksPerQuestion : ℕ) : List Question → ℕ
  | [] => 0
  | _ :: rest => marksPerQuestion + mcqRemainingMarks marksPerQuestion rest

/-- Total marks returned by `MCQPaperGenerator.generate_from_sections`:
the first question of each section is rendered outside the
marks-accumulating loop, which then covers `selected[1:]`. -/
def mcqGenTotalMarks (sections : List SectionCfg) : ℕ :=
  sections.foldl
    (fun acc s => acc + mcqRemainingMarks s.marksPerQuestion
      ((selectedQuestions s).drop 1)) 0

/-- Total marks returned by
`EnhancedMCQPaperGenerator.generate_from_sections` (lines 1222-1245):
the `for question in questions_with_numbers` loop adds
`marks_per_question` once per selected question, first included. -/
def enhancedGenTotalMarks (sections : List SectionCfg) : ℕ :=
  sections.foldl
    (fun acc s => acc + mcqRemainingMarks s.marksPerQuestion
      (selectedQuestions s)) 0

/-- Modelled from the spec (§4.6, "accumulate total marks
(`count × marksPerQuestion`)"): the total-marks value the claim says
`generate_from_sections` returns. -/
def claimedTotalMarks (sections : List SectionCfg) : ℕ :=
  sections.foldl
    (fun acc s => acc + (selectedQuestions s).length * s.marksPerQuestion) 0

/-- The choice-shuffle of `generate_enhanced_mcq_sets_with_keys`
(`src/enhanced_mcq_paper_builder.py` lines 394-411) recorded-answer
computation, with `shuffled` standing for the result of
`random.shuffle` on `combined = list(zip(all_choices,
original_indices))`: `correct_index = all_choices.index(answer)`;
`new_answer_index = shuffled_indices.index(correct_index)`;
`answer' = shuffled_choices[new_answer_index]`. -/
def shuffledAnswer (shuffled : List (String × ℕ)) (choices : List String)
    (answer : String) : String :=
  let correctIndex := choices.indexOf answer
  let newAnswerIndex := (shuffled.map Prod.snd).indexOf correctIndex
  (shuffled.map Prod.fst).getD newAnswerIndex ""

/-- `combined = list(zip(all_choices, original_indices))` before the
shuffle. -/
def choicesWithIndices (choices : List String) : List (String × ℕ) :=
  choices.zip (List.range choices.length)

/-- The shuffled copy of a question produced by
`generate_enhanced_mcq_sets_with_keys`: permuted choices, recomputed
answer, all other fields copied. -/
def shuffleQuestion (shuffled : List (String × ℕ)) (q : Question) : Question :=
  { q with
    choices := shuffled.map Prod.fst
    answer := shuffledAnswer shuffled q.choices q.answer }

/-- `ordered_questions = [shuffled_questions[i] for i in
question_indices]` (lines 416-419). -/
def reorderQuestions (questionIndices : List ℕ) (shuffledQuestions : List Question) :
    List Question :=
  questionIndices.map fun i => shuffledQuestions.getD i default

/-! ### Claim-side (spec-worded) definitions and concrete metrics -/

/-- Modelled from the spec (§4.1): the spec's greedy word-wrap line
count — "accumulates words into a line while the line's rendered width
stays ≤ maxWidth; when adding the next word would exceed maxWidth,
starts a new line with that word", with "a single word wider than
maxWidth is kept on its own line". State: `(lines, current line)`,
where the current line is `none` until a first word lands on it. -/
def specWrapStep (ws : String → ℚ) (width : ℚ) :
    ℕ × Option String → String → ℕ × Option String
  | (l, none), w => (l, some w)
  | (l, some cur), w =>
    if ws (cur ++ " " ++ w) > width then (l + 1, some w)
    else (l, some (cur ++ " " ++ w))

/-- Modelled from the spec (§4.1): spec-worded line count; an empty
text has one line. -/
def specWrapLines (ws : String → ℚ) (width : ℚ) (text : String) : ℕ :=
  ((pyWords text).foldl (specWrapStep ws width) (1, none)).1

/-- Modelled from the spec (§4.1): `lineCount × lineHeight` with the
spec-worded line count. -/
def specTextHeight (cfg : Config) (wf : WidthFn)
    (text : String) (width : ℚ) (fontSize : ℕ) : ℚ :=
  (specWrapLines (wf FontFamily.noto FontStyle.regular fontSize) width text : ℚ) *
    cfg.lineHeight

/-- The extra line `estimate_text_height` counts beyond the spec's
greedy wrap: 1 exactly when the first word alone is wider than the
target width (the loop increments `lines` even though the current line
is still empty). -/
def overwideExtra (ws : String → ℚ) (width : ℚ) (text : String) : ℕ :=
  match pyWords text with
  | [] => 0
  | w :: _ => if ws w > width then 1 else 0

/-- Modelled from the spec ("each choice's rendered width (label plus
text) is at most half the available options width minus the
inter-option gap"): the claim's per-choice side-by-side condition. -/
def claimPairCondition (cfg : Config) (wf : WidthFn) (o1 o2 : String) : Prop :=
  measure_option_width cfg wf o1 ≤ optionsWidth cfg / 2 - cfg.optionColumnGap ∧
    measure_option_width cfg wf o2 ≤ optionsWidth cfg / 2 - cfg.optionColumnGap

instance (cfg : Config) (wf : WidthFn) (o1 o2 : String) :
    Decidable (claimPairCondition cfg wf o1 o2) :=
  inferInstanceAs (Decidable (_ ≤ _ ∧ _ ≤ _))

/-- The sequence of pairing decisions taken by the estimation loop of
`measure_question_height` (lines 579-608): `true` = the next two
choices go side by side, `false` = the next choice gets a full-width
line. -/
def measurePairFlags (cfg : Config) (wf : WidthFn) : List String → List Bool
  | [] => []
  | c :: rest =>
    match rest with
    | [] => [false]
    | c2 :: rest2 =>
      if can_fit_two_options cfg wf c c2 then
        true :: measurePairFlags cfg wf rest2
      else
        false :: measurePairFlags cfg wf (c2 :: rest2)

/-- The sequence of pairing decisions taken by the rendering loop of
`add_question` (lines 515-547), which also threads the option index
`i` for labels and answer marking. -/
def renderPairFlagsGo (cfg : Config) (wf : WidthFn) :
    List String → ℕ → List Bool
  | [], _ => []
  | c :: rest, i =>
    match rest with
    | [] => [false]
    | c2 :: rest2 =>
      if can_fit_two_options cfg wf c c2 then
        true :: renderPairFlagsGo cfg wf rest2 (i + 2)
      else
        false :: renderPairFlagsGo cfg wf (c2 :: rest2) (i + 1)

/-- Pairing decisions of the rendering loop, started at `i = 0`. -/
def renderPairFlags (cfg : Config) (wf : WidthFn) (choices : List String) :
    List Bool :=
  renderPairFlagsGo cfg wf choices 0

/-- A font metric in which every string is 1mm wide (all blocks fit on
one line, every pair of options fits side by side). -/
def W1 : WidthFn := fun _ _ _ _ => 1

/-- A font metric in which every string has width 0. -/
def W0 : WidthFn := fun _ _ _ _ => 0

/-- A font metric in which every string is 40mm wide (each block is one
line but no two options fit side by side at medium/A4 widths). -/
def W40 : WidthFn := fun _ _ _ _ => 40

/-- A monospace font metric: 1mm per character. -/
def Wmono : WidthFn := fun _ _ _ s => (s.length : ℚ)

/-- A cursor at the top of the left column of page 2. -/
def stFresh : St := ⟨2, Side.left, 20, 0⟩

/-- A cursor on page 2, left column, at `y = 121.2` — low enough that a
26-single-option question passes the placement check with 0.2mm to
spare, yet its last option line crosses the fpdf break trigger. -/
def stLow : St := ⟨2, Side.left, 606 / 5, 0⟩

/-- A cursor on page 2, left column, at `y = 246` — inside the window
where `add_section` keeps the header + first question in place but
`add_question`'s stricter re-check moves the first question away. -/
def stOrphan : St := ⟨2, Side.left, 246, 0⟩

/-- A 66-character option string (monospace width 66). -/
def longChoice : String := String.mk (List.replicate 66 'b')

/-- One section with two one-mark questions, both required: the
smallest input on which the two `generate_from_sections` variants
disagree about total marks. -/
def demoSection : SectionCfg where
  name := "Section A"
  description := "Answer all questions."
  questions :=
    [⟨"First question", ["a", "b"], "a", none⟩,
     ⟨"Second question", ["c", "d"], "c", none⟩]
  required := 2
  marksPerQuestion := 1

/-! ### Text metrics: the wrap loop versus the spec's greedy wrap -/

theorem append_space_ne (cur w : String) : cur ++ " " ++ w ≠ "" := by
  intro h
  have h1 : ("" : String).length = (cur ++ " " ++ w).length := by rw [h]
  rw [String.length_append, String.length_append] at h1
  have h2 : (" " : String).length = 1 := rfl
  have h3 : ("" : String).length = 0 := rfl
  omega

theorem splitWordsAux_ne_empty :
    ∀ (cs acc : List Char), ∀ w ∈ splitWordsAux cs acc, w ≠ "" := by
  intro cs
  induction cs with
  | nil =>
    intro acc w hw
    simp only [splitWordsAux] at hw
    by_cases hacc : acc = []
    · simp [hacc] at hw
    · simp only [if_neg hacc, List.mem_singleton] at hw
      subst hw
      intro hmk
      exact hacc (by simpa using congrArg String.data hmk)
  | cons c cs ih =>
    intro acc w hw
    simp only [splitWordsAux] at hw
    by_cases hws : c.isWhitespace
    · simp only [if_pos hws, List.mem_append] at hw
      rcases hw with hw | hw
      · by_cases hacc : acc = []
        · simp [hacc] at hw
        · simp only [if_neg hacc, List.mem_singleton] at hw
          subst hw
          intro hmk
          exact hacc (by simpa using congrArg String.data hmk)
      · exact ih [] w hw
    · simp only [if_neg hws] at hw
      exact ih (acc ++ [c]) w hw

theorem pyWords_ne_empty {t : String} : ∀ w ∈ pyWords t, w ≠ "" :=
  fun w hw => splitWordsAux_ne_empty t.data [] w hw

theorem foldl_wrapStep_add (ws : String → ℚ) (width : ℚ) :
    ∀ (words : List String) (l k : ℕ) (cur : String),
      (words.foldl (wrapStep ws width) (l + k, cur)).1 =
        (words.foldl (wrapStep ws width) (l, cur)).1 + k := by
  intro words
  induction words with
  | nil => intro l k cur; rfl
  | cons w rest ih =>
    intro l k cur
    simp only [List.foldl_cons, wrapStep]
    by_cases h : ws (if cur = "" then w else cur ++ " " ++ w) > width
    · simp only [if_pos h]
      have hk : l + k + 1 = (l + 1) + k := by omega
      rw [hk]
      exact ih (l + 1) k w
    · simp only [if_neg h]
      exact ih l k _

theorem foldl_wrapStep_eq_spec (ws : String → ℚ) (width : ℚ) :
    ∀ (words : List String) (l : ℕ) (cur : String), cur ≠ "" →
      (∀ w ∈ words, w ≠ "") →
      (words.foldl (wrapStep ws width) (l, cur)).1 =
        (words.foldl (specWrapStep ws width) (l, some cur)).1 := by
  intro words
  induction words with
  | nil => intros; rfl
  | cons w rest ih =>
    intro l cur hcur hw
    have hwhead : w ≠ "" := hw w (List.mem_cons_self w rest)
    have hwtail : ∀ x ∈ rest, x ≠ "" := fun x hx => hw x (List.mem_cons_of_mem w hx)
    simp only [List.foldl_cons, wrapStep, specWrapStep, if_neg hcur]
    by_cases h : ws (cur ++ " " ++ w) > width
    · simp only [if_pos h]
      exact ih (l + 1) w hwhead hwtail
    · simp only [if_neg h]
      exact ih l (cur ++ " " ++ w) (append_space_ne cur w) hwtail

theorem wrapLines_eq_spec (ws : String → ℚ) (width : ℚ) (text : String) :
    wrapLines ws width text =
      specWrapLines ws width text + overwideExtra ws width text := by
  unfold wrapLines specWrapLines overwideExtra
  cases h : pyWords text with
  | nil => simp
  | cons w rest =>
    have hwords : ∀ x ∈ pyWords text, x ≠ "" := pyWords_ne_empty
    rw [h] at hwords
    have hwhead : w ≠ "" := hwords w (List.mem_cons_self w rest)
    have hwtail : ∀ x ∈ rest, x ≠ "" := fun x hx => hwords x (List.mem_cons_of_mem w hx)
    have hstep : wrapStep ws width (1, "") w =
        if ws w > width then (1 + 1, w) else (1, w) := by
      simp [wrapStep]
    have hspec : specWrapStep ws width (1, none) w = (1, some w) := rfl
    simp only [List.foldl_cons, hstep, hspec]
    by_cases hfw : ws w > width
    · simp only [if_pos hfw]
      rw [foldl_wrapStep_add ws width rest 1 1 w,
        foldl_wrapStep_eq_spec ws width rest 1 w hwhead hwtail]
    · simp only [if_neg hfw]
      rw [foldl_wrapStep_eq_spec ws width rest 1 w hwhead hwtail]
      simp

theorem pyWords_empty : pyWords "" = [] := by decide

/-- C6 (corrected): `estimate_text_height` is the spec's greedy wrap
height plus one extra (empty) line exactly when the first word alone is
wider than the target width; so a text consisting of one word wider
than the target width is counted as two lines, not one. The empty
string still yields exactly one line. No mid-word breaking occurs (the
wrap loop only splits on whitespace). -/
theorem C6_estimate_text_height_amended (cfg : Config) (wf : WidthFn)
    (text : String) (width : ℚ) (fontSize : ℕ) :
    estimate_text_height cfg wf text width fontSize =
      specTextHeight cfg wf text width fontSize +
        (overwideExtra (wf FontFamily.noto FontStyle.regular fontSize) width text : ℚ) *
          cfg.lineHeight ∧
    estimate_text_height cfg wf "" width fontSize = cfg.lineHeight := by
  constructor
  · unfold estimate_text_height specTextHeight
    rw [wrapLines_eq_spec]
    push_cast
    ring
  · unfold estimate_text_height wrapLines
    rw [pyWords_empty]
    simp

/-- C6 counterexample: under a monospace metric, the single word
`"aaaa"` at target width 3 is wider than the line, and
`estimate_text_height` returns two line heights where the claim
(one single line) demands one. -/
theorem C6_counterexample :
    estimate_text_height medA4 Wmono "aaaa" 3 13 = 2 * medA4.lineHeight ∧
    specTextHeight medA4 Wmono "aaaa" 3 13 = 1 * medA4.lineHeight ∧
    estimate_text_height medA4 Wmono "aaaa" 3 13 ≠
      specTextHeight medA4 Wmono "aaaa" 3 13 := by
  refine ⟨by decide, by decide, by decide⟩

/-! ### Option pairing -/

/-- C5 counterexample: with a monospace metric, a 1-character choice
next to a 66-character choice is paired by `can_fit_two_options`
(combined widths `4 + 69 + 4 ≤ 77`), yet the long choice's rendered
width 69 far exceeds half the options width minus the gap, so the
claim's per-choice condition is violated: the pairing is not "exactly
when" each choice fits in half the width. -/
theorem C5_counterexample :
    can_fit_two_options medA4 Wmono "a" longChoice = true ∧
    ¬ claimPairCondition medA4 Wmono "a" longChoice ∧
    ¬ (can_fit_two_options medA4 Wmono "a" longChoice = true ↔
        claimPairCondition medA4 Wmono "a" longChoice) := by
  refine ⟨by decide, by decide, by decide⟩

/-- C5 (corrected): two adjacent choices are paired exactly when the
sum of their rendered widths (label + text, `'ArialUni'` at the option
size) plus the inter-option gap is at most the available options
width — a joint condition, not a per-choice half-width bound; when
paired, the estimation contributes the max of the two choice heights
(measured at `options_width/2 - 1`) plus a 0.1 padding, and otherwise
each choice contributes its own full-width height plus 0.1 + 0.5. -/
theorem C5_pairing_rule_amended (cfg : Config) (wf : WidthFn) (o1 o2 : String)
    (rest : List String) :
    (can_fit_two_options cfg wf o1 o2 = true ↔
      measure_option_width cfg wf o1 + measure_option_width cfg wf o2 +
        cfg.optionColumnGap ≤ optionsWidth cfg) ∧
    measureChoicesHeight cfg wf (o1 :: o2 :: rest) =
      (if can_fit_two_options cfg wf o1 o2 then
        (max (estimate_text_height cfg wf ("A. " ++ o1)
               (optionsWidth cfg / 2 - 1) cfg.optionSize)
             (estimate_text_height cfg wf ("B. " ++ o2)
               (optionsWidth cfg / 2 - 1) cfg.optionSize) + 1 / 10) +
          measureChoicesHeight cfg wf rest
      else
        (estimate_text_height cfg wf ("A. " ++ o1) (optionsWidth cfg)
          cfg.optionSize + 1 / 10 + 1 / 2) +
          measureChoicesHeight cfg wf (o2 :: rest)) ∧
    measureChoicesHeight cfg wf [o1] =
      estimate_text_height cfg wf ("A. " ++ o1) (optionsWidth cfg)
        cfg.optionSize + 1 / 10 + 1 / 2 := by
  refine ⟨?_, rfl, rfl⟩
  unfold can_fit_two_options
  exact decide_eq_true_iff

/-! ### Pairing decisions: estimation loop versus rendering loop (C4) -/

theorem renderPairFlagsGo_eq_measure (cfg : Config) (wf : WidthFn) :
    ∀ (n : ℕ) (cs : List String), cs.length ≤ n → ∀ i : ℕ,
      renderPairFlagsGo cfg wf cs i = measurePairFlags cfg wf cs := by
  intro n
  induction n with
  | zero =>
    intro cs h i
    match cs with
    | [] => rfl
    | c :: rest => simp at h
  | succ n ih =>
    intro cs h i
    match cs with
    | [] => rfl
    | [c] => rfl
    | c :: c2 :: rest2 =>
      have hlen : rest2.length ≤ n := by simp at h; omega
      have hlen2 : (c2 :: rest2).length ≤ n := by simp at h; simp; omega
      simp only [renderPairFlagsGo, measurePairFlags]
      by_cases hf : can_fit_two_options cfg wf c c2
      · simp only [if_pos hf]
        rw [ih rest2 hlen (i + 2)]
      · simp only [if_neg hf]
        rw [ih (c2 :: rest2) hlen2 (i + 1)]

/-- C4 (confirmed): for every metric and every list of choices, the
sequence of side-by-side/full-width decisions computed by the
estimation loop of `measure_question_height` equals the sequence
computed by the rendering loop of `add_question` — both walk the
choices two at a time and consult the same
`can_fit_two_options(choices[i], choices[i+1])`. -/
theorem C4_pairing_decisions_agree (cfg : Config) (wf : WidthFn)
    (choices : List String) :
    renderPairFlags cfg wf choices = measurePairFlags cfg wf choices :=
  renderPairFlagsGo_eq_measure cfg wf choices.length choices le_rfl 0

/-! ### Total marks (C9) -/

/-- C9 (code bug): on a single section with two rendered one-mark
questions, `MCQPaperGenerator.generate_from_sections` returns 1 — its
marks-accumulating loop covers only the questions after the first of
each section — while the spec's `count × marksPerQuestion` is 2, which
is what `EnhancedMCQPaperGenerator.generate_from_sections` returns. -/
theorem C9_total_marks_mismatch :
    mcqGenTotalMarks [demoSection] = 1 ∧
    claimedTotalMarks [demoSection] = 2 ∧
    enhancedGenTotalMarks [demoSection] = 2 ∧
    mcqGenTotalMarks [demoSection] ≠ claimedTotalMarks [demoSection] := by
  refine ⟨rfl, rfl, rfl, by decide⟩

/-! ### Shuffling (C8, C10) -/

theorem choicesWithIndices_length (choices : List String) :
    (choicesWithIndices choices).length = choices.length := by
  simp [choicesWithIndices]

theorem choicesWithIndices_getElem (choices : List String) (i : ℕ)
    (h : i < (choicesWithIndices choices).length) (hc : i < choices.length) :
    (choicesWithIndices choices)[i] = (choices[i], i) := by
  unfold choicesWithIndices
  rw [List.getElem_zip]
  simp [List.getElem_range]

/-- C8 (confirmed): for any permutation `shuffled` of the
`(choice, original_index)` pairs, the recorded answer of the shuffled
question copy is the very text of the pre-shuffle correct choice —
`shuffled_choices[shuffled_indices.index(all_choices.index(answer))]`
recovers `answer` whenever the answer occurs among the choices. -/
theorem C8_shuffle_preserves_answer (choices : List String) (answer : String)
    (shuffled : List (String × ℕ))
    (hperm : shuffled.Perm (choicesWithIndices choices))
    (hmem : answer ∈ choices) :
    shuffledAnswer shuffled choices answer = answer := by
  have hci : choices.indexOf answer < choices.length :=
    List.indexOf_lt_length.mpr hmem
  have hzlen : choices.indexOf answer < (choicesWithIndices choices).length := by
    rw [choicesWithIndices_length]
    exact hci
  have hmemzip : (choices[choices.indexOf answer], choices.indexOf answer) ∈
      choicesWithIndices choices := by
    rw [← choicesWithIndices_getElem choices _ hzlen hci]
    exact List.getElem_mem hzlen
  have hmemsc : (choices[choices.indexOf answer], choices.indexOf answer) ∈
      shuffled := hperm.mem_iff.mpr hmemzip
  have hsndmem : choices.indexOf answer ∈ shuffled.map Prod.snd :=
    List.mem_map_of_mem Prod.snd hmemsc
  have hj : (shuffled.map Prod.snd).indexOf (choices.indexOf answer) <
      (shuffled.map Prod.snd).length := List.indexOf_lt_length.mpr hsndmem
  have hjs : (shuffled.map Prod.snd).indexOf (choices.indexOf answer) <
      shuffled.length := by simpa using hj
  have hsnd_j : (shuffled.get ⟨(shuffled.map Prod.snd).indexOf
      (choices.indexOf answer), hjs⟩).2 = choices.indexOf answer := by
    have h2 := List.getElem_indexOf hj
    rw [List.getElem_map] at h2
    rw [List.get_eq_getElem]
    exact h2
  have hjmem : shuffled.get ⟨(shuffled.map Prod.snd).indexOf
      (choices.indexOf answer), hjs⟩ ∈ choicesWithIndices choices :=
    hperm.mem_iff.mp (List.get_mem shuffled _ hjs)
  obtain ⟨k, hk, hkeq⟩ := List.getElem_of_mem hjmem
  have hkc : k < choices.length := by
    rw [choicesWithIndices_length] at hk
    exact hk
  rw [choicesWithIndices_getElem choices k hk hkc] at hkeq
  have hkci : k = choices.indexOf answer := by
    have h3 := congrArg Prod.snd hkeq
    simp only at h3
    rw [hsnd_j] at h3
    exact h3
  subst hkci
  have hfst : (shuffled.get ⟨(shuffled.map Prod.snd).indexOf
      (choices.indexOf answer), hjs⟩).1 = answer := by
    have h4 := congrArg Prod.fst hkeq
    simp only at h4
    rw [← h4]
    exact List.getElem_indexOf hci
  unfold shuffledAnswer
  rw [List.getD_eq_getElem _ _ (by simpa using hjs), List.getElem_map]
  rw [List.get_eq_getElem] at hfst
  exact hfst

/-- Witness for C8: a 3-cycle of three choices, answer `"y"`. -/
theorem C8_shuffle_preserves_answer_witness :
    ([("z", 2), ("x", 0), ("y", 1)] : List (String × ℕ)).Perm
      (choicesWithIndices ["x", "y", "z"]) ∧
    "y" ∈ (["x", "y", "z"] : List String) ∧
    shuffledAnswer [("z", 2), ("x", 0), ("y", 1)] ["x", "y", "z"] "y" = "y" :=
  ⟨by decide, by decide,
    C8_shuffle_preserves_answer ["x", "y", "z"] "y"
      [("z", 2), ("x", 0), ("y", 1)] (by decide) (by decide)⟩

theorem map_getD_range {α : Type} (l : List α) (d : α) :
    (List.range l.length).map (fun i => l.getD i d) = l := by
  apply List.ext_getElem
  · simp
  · intro n h1 h2
    rw [List.getElem_map, List.getElem_range, List.getD_eq_getElem _ _ h2]

theorem reorder_perm {α : Type} (l : List α) (d : α) (p : List ℕ)
    (hp : p.Perm (List.range l.length)) :
    (p.map (fun i => l.getD i d)).Perm l := by
  have h := hp.map (fun i => l.getD i d)
  rwa [map_getD_range] at h

theorem zipWith_shuffle_map_question :
    ∀ (ps : List (List (String × ℕ))) (qs : List Question),
      ps.length = qs.length →
      (List.zipWith shuffleQuestion ps qs).map Question.question =
        qs.map Question.question := by
  intro ps
  induction ps with
  | nil =>
    intro qs h
    cases qs with
    | nil => rfl
    | cons q qs => simp at h
  | cons p ps ih =>
    intro qs h
    cases qs with
    | nil => simp at h
    | cons q qs =>
      simp only [List.zipWith_cons_cons, List.map_cons]
      rw [ih qs (by simpa using h)]
      rfl

/-- C10 (confirmed): each shuffled question copy's choice list is a
permutation of the original choices (`random.shuffle` of the
`(choice, index)` pairs, projected to the choices), and the reordered
per-section question list `[shuffled_questions[i] for i in
question_indices]` is a permutation of the shuffled question list —
in particular the multiset of question stems is exactly that of the
section's original questions: nothing dropped, duplicated or altered. -/
theorem C10_shuffle_is_permutation (qs : List Question)
    (perms : List (List (String × ℕ))) (hlen : perms.length = qs.length)
    (hperm : ∀ i, i < qs.length →
      ((perms.getD i []).Perm
        (choicesWithIndices ((qs.getD i default).choices))))
    (onat : List ℕ) (hord : onat.Perm (List.range qs.length)) :
    (∀ i, i < qs.length →
      (((List.zipWith shuffleQuestion perms qs).getD i default).choices).Perm
        ((qs.getD i default).choices)) ∧
    (reorderQuestions onat (List.zipWith shuffleQuestion perms qs)).Perm
      (List.zipWith shuffleQuestion perms qs) ∧
    ((reorderQuestions onat (List.zipWith shuffleQuestion perms qs)).map
      Question.question).Perm (qs.map Question.question) := by
  have hzlen : (List.zipWith shuffleQuestion perms qs).length = qs.length := by
    simp [hlen]
  have hreord : (reorderQuestions onat
      (List.zipWith shuffleQuestion perms qs)).Perm
      (List.zipWith shuffleQuestion perms qs) := by
    unfold reorderQuestions
    exact reorder_perm _ default onat (by rw [hzlen]; exact hord)
  refine ⟨?_, hreord, ?_⟩
  · intro i hi
    have hip : i < perms.length := by omega
    have hzi : i < (List.zipWith shuffleQuestion perms qs).length := by
      rw [hzlen]; exact hi
    rw [List.getD_eq_getElem _ _ hzi, List.getElem_zipWith]
    have h1 := (hperm i hi).map Prod.fst
    rw [List.getD_eq_getElem perms [] hip, List.getD_eq_getElem qs default hi] at h1
    have h2 : (choicesWithIndices (qs[i].choices)).map Prod.fst =
        qs[i].choices := by
      unfold choicesWithIndices
      exact List.map_fst_zip _ _ (by simp)
    rw [h2] at h1
    rw [List.getD_eq_getElem qs default hi]
    exact h1
  · have h := hreord.map Question.question
    rwa [zipWith_shuffle_map_question perms qs hlen] at h

/-- Witness for C10: two questions, a swap of each question's two
choices, and the question order reversed. -/
theorem C10_shuffle_is_permutation_witness :
    (([[("b", 1), ("a", 0)], [("c", 0), ("d", 1)]] :
        List (List (String × ℕ))).length =
      ([⟨"q1", ["a", "b"], "a", none⟩, ⟨"q2", ["c", "d"], "d", none⟩] :
        List Question).length) ∧
    (∀ i, i < ([⟨"q1", ["a", "b"], "a", none⟩,
        ⟨"q2", ["c", "d"], "d", none⟩] : List Question).length →
      ((([[("b", 1), ("a", 0)], [("c", 0), ("d", 1)]] :
          List (List (String × ℕ))).getD i []).Perm
        (choicesWithIndices ((([⟨"q1", ["a", "b"], "a", none⟩,
          ⟨"q2", ["c", "d"], "d", none⟩] : List Question).getD i
            default).choices)))) ∧
    (([1, 0] : List ℕ).Perm (List.range ([⟨"q1", ["a", "b"], "a", none⟩,
      ⟨"q2", ["c", "d"], "d", none⟩] : List Question).length)) ∧
    ((∀ i, i < ([⟨"q1", ["a", "b"], "a", none⟩,
        ⟨"q2", ["c", "d"], "d", none⟩] : List Question).length →
      (((List.zipWith shuffleQuestion
          [[("b", 1), ("a", 0)], [("c", 0), ("d", 1)]]
          [⟨"q1", ["a", "b"], "a", none⟩, ⟨"q2", ["c", "d"], "d", none⟩]).getD
            i default).choices).Perm
        ((([⟨"q1", ["a", "b"], "a", none⟩, ⟨"q2", ["c", "d"], "d", none⟩] :
          List Question).getD i default).choices)) ∧
    (reorderQuestions [1, 0] (List.zipWith shuffleQuestion
        [[("b", 1), ("a", 0)], [("c", 0), ("d", 1)]]
        [⟨"q1", ["a", "b"], "a", none⟩, ⟨"q2", ["c", "d"], "d", none⟩])).Perm
      (List.zipWith shuffleQuestion
        [[("b", 1), ("a", 0)], [("c", 0), ("d", 1)]]
        [⟨"q1", ["a", "b"], "a", none⟩, ⟨"q2", ["c", "d"], "d", none⟩]) ∧
    ((reorderQuestions [1, 0] (List.zipWith shuffleQuestion
        [[("b", 1), ("a", 0)], [("c", 0), ("d", 1)]]
        [⟨"q1", ["a", "b"], "a", none⟩, ⟨"q2", ["c", "d"], "d", none⟩])).map
      Question.question).Perm
      (([⟨"q1", ["a", "b"], "a", none⟩, ⟨"q2", ["c", "d"], "d", none⟩] :
        List Question).map Question.question)) :=
  ⟨rfl, by decide, by decide,
    C10_shuffle_is_permutation
      [⟨"q1", ["a", "b"], "a", none⟩, ⟨"q2", ["c", "d"], "d", none⟩]
      [[("b", 1), ("a", 0)], [("c", 0), ("d", 1)]] rfl (by decide)
      [1, 0] (by decide)⟩

/-! ### Placement recursion on oversized questions (C3) -/

theorem placeQuestion_oversized_none (total : ℚ)
    (htotal : medA4.pageH - (MIN_FOOTER_BUFFER + 5) - 20 < total) :
    ∀ (fuel : ℕ) (st : St), st.y = 20 → 2 ≤ st.page →
      placeQuestion medA4 fuel st total = none := by
  intro fuel
  induction fuel with
  | zero =>
    intro st hy hp
    unfold placeQuestion
    rw [hy, if_neg (by linarith)]
  | succ n ih =>
    intro st hy hp
    unfold placeQuestion
    rw [hy, if_neg (by linarith)]
    have hrcs : rightColumnStart st = 20 := by
      unfold rightColumnStart
      rw [if_neg (by omega)]
    rw [hrcs, if_neg (by rintro ⟨-, h2⟩; linarith)]
    exact ih _ rfl (Nat.le_succ_of_le hp)

set_option maxRecDepth 8000 in
/-- C3 (code bug): a question whose measured height plus the 5-unit
placement buffer exceeds a fresh page's full column (260mm on medium
A4) makes `add_question` recurse forever: from a fresh left column the
left check fails, the right column offers the same 260mm, so the code
adds page after page without ever drawing — the Python process dies
with `RecursionError` instead of rendering the content with overflow
past the footer reserve. -/
theorem C3_oversized_question_never_draws :
    measure_question_height medA4 W40 false "Q" (List.replicate 50 "x") none + 5 =
      293 ∧
    medA4.pageH - (MIN_FOOTER_BUFFER + 5) - 20 < 293 ∧
    ∀ fuel : ℕ,
      addQuestion medA4 W40 false fuel stFresh "Q" (List.replicate 50 "x")
        none none = none := by
  have hm : measure_question_height medA4 W40 false "Q"
      (List.replicate 50 "x") none + 5 = 293 := by decide
  refine ⟨hm, by norm_num [medA4, MIN_FOOTER_BUFFER], ?_⟩
  intro fuel
  have hplace := placeQuestion_oversized_none 293
    (by norm_num [medA4, MIN_FOOTER_BUFFER]) fuel stFresh rfl (by decide)
  simp only [addQuestion, hm, hplace, Option.map_none']

/-! ### Estimate versus actually consumed height (C2) -/

theorem foldl_wrapStep_const (ws : String → ℚ) (width : ℚ)
    (h : ∀ t, ws t ≤ width) :
    ∀ (words : List String) (l : ℕ) (cur : String),
      (words.foldl (wrapStep ws width) (l, cur)).1 = l := by
  intro words
  induction words with
  | nil => intros; rfl
  | cons w rest ih =>
    intro l cur
    simp only [List.foldl_cons, wrapStep]
    rw [if_neg (not_lt.mpr (h _))]
    exact ih l _

theorem wrapLines_one (ws : String → ℚ) (width : ℚ)
    (h : ∀ t, ws t ≤ width) (text : String) : wrapLines ws width text = 1 :=
  foldl_wrapStep_const ws width h (pyWords text) 1 ""

theorem estimate_W0 (cfg : Config) (text : String) (width : ℚ) (size : ℕ)
    (hw : 0 ≤ width) :
    estimate_text_height cfg W0 text width size = cfg.lineHeight := by
  unfold estimate_text_height
  rw [wrapLines_one (W0 FontFamily.noto FontStyle.regular size) width
    (fun t => hw) text]
  simp

theorem canFit_W0 (o1 o2 : String) :
    can_fit_two_options medA4 W0 o1 o2 = true := by
  unfold can_fit_two_options measure_option_width W0
  rw [decide_eq_true_eq]
  norm_num [optionsWidth, columnWidth, medA4]

theorem measureChoices_W0 :
    ∀ (n : ℕ) (cs : List String), cs.length ≤ n →
      measureChoicesHeight medA4 W0 cs =
        (51 / 10) * ((cs.length / 2 : ℕ) : ℚ) +
          (28 / 5) * ((cs.length % 2 : ℕ) : ℚ) := by
  intro n
  induction n with
  | zero =>
    intro cs h
    match cs with
    | [] => simp [measureChoicesHeight]
  | succ n ih =>
    intro cs h
    match cs with
    | [] => simp [measureChoicesHeight]
    | [c] =>
      simp only [measureChoicesHeight]
      rw [estimate_W0 medA4 _ _ _ (by norm_num [optionsWidth, columnWidth, medA4])]
      norm_num [medA4]
    | c :: c2 :: rest =>
      simp only [measureChoicesHeight, canFit_W0, if_true]
      rw [estimate_W0 medA4 _ _ _
          (by norm_num [optionsWidth, columnWidth, medA4]),
        estimate_W0 medA4 _ _ _
          (by norm_num [optionsWidth, columnWidth, medA4]),
        ih rest (by simp at h; omega)]
      have hlen : (c :: c2 :: rest).length = rest.length + 2 := by simp
      rw [hlen]
      have hdiv : (rest.length + 2) / 2 = rest.length / 2 + 1 := by omega
      have hmod : (rest.length + 2) % 2 = rest.length % 2 := by omega
      rw [hdiv, hmod]
      push_cast
      simp only [max_self, medA4]
      ring

theorem cellBreak_noBreak (cfg : Config) (st : St) (h : ℚ)
    (hnb : ¬ st.y + h > breakTrigger cfg) : cellBreak cfg st h = st := by
  unfold cellBreak
  rw [if_neg hnb]

theorem multiCellGo_one (kind : ElemKind) (x : ℚ) (st : St)
    (hy : st.y + 5 ≤ 282) :
    multiCellGo medA4 kind x 5 1 st =
      (setY st (st.y + 5), [⟨kind, st.page, st.side, x, st.y⟩]) := by
  unfold multiCellGo multiCellGo
  rw [cellBreak_noBreak medA4 st 5
    (by norm_num [breakTrigger, medA4]; linarith)]

theorem multiCell_W0_one (fam : FontFamily) (sty : FontStyle) (size : ℕ)
    (kind : ElemKind) (st : St) (x width : ℚ) (text : String)
    (hwidth : 0 ≤ width) (hy : st.y + 5 ≤ 282) :
    multiCell medA4 W0 fam sty size kind st x width medA4.lineHeight text =
      (setY st (st.y + 5), [⟨kind, st.page, st.side, x, st.y⟩]) := by
  unfold multiCell
  rw [wrapLines_one (W0 fam sty size) width (fun t => hwidth) text]
  have h5 : medA4.lineHeight = (5 : ℚ) := rfl
  rw [h5]
  exact multiCellGo_one kind x st hy

theorem writeSingleOption_W0 (sa : Bool) (st : St) (x y w : ℚ) (t : String)
    (ia : Bool) (hy : y + 5 ≤ 282) (hw : 0 ≤ w - 5 + 1) :
    writeSingleOption medA4 W0 sa st x y w t ia =
      (setY st (y + 5),
        [⟨ElemKind.optionLabel, st.page, st.side, x, y⟩,
         ⟨ElemKind.optionText, st.page, st.side, x + 5, y⟩], 5) := by
  unfold writeSingleOption
  dsimp only
  rw [cellBreak_noBreak medA4 (setY st y) medA4.lineHeight
    (by norm_num [breakTrigger, medA4, setY]; linarith)]
  rw [multiCell_W0_one FontFamily.arialUni
    (if ia = true ∧ sa = true then FontStyle.bold else FontStyle.regular)
    medA4.optionSize ElemKind.optionText (setY (setY st y) y) (x + 5)
    (w - 5 + 1) (if ia = true ∧ sa = true then t ++ " *" else t) hw
    (by simpa [setY] using hy)]
  dsimp only [setY]
  simp only [Prod.mk.injEq, true_and, and_true]
  ring

theorem renderChoicesGo_W0_cy (sa : Bool) (ci : Option ℕ) (x : ℚ) :
    ∀ (n : ℕ) (cs : List String), cs.length ≤ n → ∀ (i : ℕ) (st : St) (cy : ℚ),
      cy + 6 * (((cs.length + 1) / 2 : ℕ) : ℚ) ≤ 283 →
      (renderChoicesGo medA4 W0 sa ci x cs i st cy).2.2 =
        cy + 6 * (((cs.length + 1) / 2 : ℕ) : ℚ) := by
  intro n
  induction n with
  | zero =>
    intro cs h
    match cs with
    | [] =>
      intro i st cy hcy
      simp [renderChoicesGo]
  | succ n ih =>
    intro cs h
    match cs with
    | [] =>
      intro i st cy hcy
      simp [renderChoicesGo]
    | [c] =>
      intro i st cy hcy
      have hG : (([c] : List String).length + 1) / 2 = 1 := by simp
      rw [hG] at hcy ⊢
      have hcy5 : cy + 5 ≤ 282 := by push_cast at hcy; linarith
      simp only [renderChoicesGo]
      rw [writeSingleOption_W0 sa st x cy (optionsWidth medA4) c _ hcy5
        (by norm_num [optionsWidth, columnWidth, medA4])]
      push_cast
      ring
    | c :: c2 :: rest =>
      intro i st cy hcy
      have hlen2 : rest.length ≤ n := by simp at h; omega
      have hGsucc : ((c :: c2 :: rest).length + 1) / 2 =
          (rest.length + 1) / 2 + 1 := by simp; omega
      have hGnn : (0 : ℚ) ≤ (((rest.length + 1) / 2 : ℕ) : ℚ) := by positivity
      rw [hGsucc] at hcy ⊢
      have hcy5 : cy + 5 ≤ 282 := by push_cast at hcy; linarith
      simp only [renderChoicesGo]
      rw [if_pos (canFit_W0 c c2)]
      rw [writeSingleOption_W0 sa st x cy
        ((optionsWidth medA4 - medA4.optionColumnGap) / 2) c _ hcy5
        (by norm_num [optionsWidth, columnWidth, medA4])]
      dsimp only
      rw [writeSingleOption_W0 sa (setY st (cy + 5))
        (x + (optionsWidth medA4 - medA4.optionColumnGap) / 2 +
          medA4.optionColumnGap) cy
        ((optionsWidth medA4 - medA4.optionColumnGap) / 2) c2 _ hcy5
        (by norm_num [optionsWidth, columnWidth, medA4])]
      dsimp only
      rw [ih rest hlen2 (i + 2) (setY (setY st (cy + 5)) (cy + 5))
        (cy + max (5 : ℚ) 5 + 1)
        (by rw [max_self]; push_cast at hcy ⊢; linarith), max_self]
      push_cast
      ring

/-- C2 counterexample: with a metric in which every string is 1mm wide
(everything single-line, all four choices paired two-up), a question
with four choices passes the placement check at the top of a fresh
column, draws without any page break, and consumes 19mm — more than the
18.2mm returned by `measure_question_height` (its 2-unit safety buffer
included): the per-group +1mm render spacings exceed the estimation's
+0.1 paddings. -/
theorem C2_estimate_undershoots_actual :
    placeQuestion medA4 0 stFresh
      (measure_question_height medA4 W1 false "Q" ["a", "b", "c", "d"] none + 5) =
      some stFresh ∧
    (drawQuestion medA4 W1 false stFresh "Q" ["a", "b", "c", "d"] none
      none).1.page = stFresh.page ∧
    measure_question_height medA4 W1 false "Q" ["a", "b", "c", "d"] none =
      91 / 5 ∧
    (drawQuestion medA4 W1 false stFresh "Q" ["a", "b", "c", "d"] none
      none).1.y - stFresh.y = 19 ∧
    ¬ ((drawQuestion medA4 W1 false stFresh "Q" ["a", "b", "c", "d"] none
        none).1.y - stFresh.y ≤
      measure_question_height medA4 W1 false "Q" ["a", "b", "c", "d"] none) := by
  refine ⟨by decide, by decide, by decide, by decide, by decide⟩

/-- C2 (corrected): the estimate does not dominate the consumed height.
With the zero-width metric (every block a single wrapped line, every
adjacent pair rendered two-up) and at most 80 choices (so no automatic
page break fires), the vertical extent consumed by the drawing phase
from the top of a fresh column exceeds the estimate by exactly
`0.9 × (pairs) + 0.4 × (trailing single) - 1`, plus 1 more in
answer-key mode with an explanation — positive for any question with
four or more choices despite the estimate's 2-unit safety buffer. -/
theorem C2_height_relation_amended (qt : String) (cs : List String)
    (r : Option String) (sa : Bool) (ci : Option ℕ)
    (hlen : cs.length ≤ 80) :
    (drawQuestion medA4 W0 sa stFresh qt cs ci r).1.y - 20 =
      measure_question_height medA4 W0 sa qt cs r +
        (9 / 10) * ((cs.length / 2 : ℕ) : ℚ) +
        (2 / 5) * ((cs.length % 2 : ℕ) : ℚ) - 1 +
        (if truthy r ∧ sa then 1 else 0) := by
  have hm : measure_question_height medA4 W0 sa qt cs r =
      8 + (51 / 10) * ((cs.length / 2 : ℕ) : ℚ) +
        (28 / 5) * ((cs.length % 2 : ℕ) : ℚ) +
        (if truthy r ∧ sa then 12 else 0) := by
    unfold measure_question_height
    rw [estimate_W0 medA4 qt _ _
        (by norm_num [questionWidth, columnWidth, medA4]),
      measureChoices_W0 cs.length cs le_rfl]
    by_cases hr : truthy r = true ∧ sa = true
    · rw [if_pos hr, if_pos hr,
        estimate_W0 medA4 _ _ _ (by norm_num [optionsWidth, columnWidth, medA4])]
      show (5 : ℚ) + 1 + _ + (5 + 7) + 2 = _
      ring
    · rw [if_neg hr, if_neg hr]
      show (5 : ℚ) + 1 + _ + 0 + 2 = _
      ring
  have hGle : (cs.length + 1) / 2 ≤ 40 := by omega
  have hGleQ : (((cs.length + 1) / 2 : ℕ) : ℚ) ≤ 40 := by exact_mod_cast hGle
  have hsplit : (cs.length + 1) / 2 = cs.length / 2 + cs.length % 2 := by omega
  unfold drawQuestion
  dsimp only
  rw [cellBreak_noBreak medA4 (setY stFresh stFresh.y) 5
    (by norm_num [breakTrigger, medA4, setY, stFresh])]
  rw [multiCell_W0_one FontFamily.arialUni FontStyle.italic medA4.questionSize
    ElemKind.questionText (setY (setY stFresh stFresh.y) stFresh.y)
    ((if stFresh.side = Side.left then 10 else medA4.pageW / 2 + 2) +
      medA4.questionNumberWidth + 1) (questionWidth medA4) qt
    (by norm_num [questionWidth, columnWidth, medA4])
    (by norm_num [setY, stFresh])]
  dsimp only [setY]
  rw [show stFresh.y = (20 : ℚ) from rfl]
  set G := renderChoicesGo medA4 W0 sa ci
    ((if stFresh.side = Side.left then 10 else medA4.pageW / 2 + 2) +
      medA4.questionNumberWidth + 1 + 2) cs 0
    ⟨stFresh.page, stFresh.side, 20 + 5, stFresh.fpo⟩ (20 + 5 + 1) with hG
  have hcy1 : G.2.2 = 20 + 5 + 1 + 6 * (((cs.length + 1) / 2 : ℕ) : ℚ) := by
    rw [hG]
    exact renderChoicesGo_W0_cy sa ci _ cs.length cs le_rfl 0 _ _
      (by linarith)
  by_cases hr : truthy r = true ∧ sa = true
  · rw [if_pos hr]
    rw [cellBreak_noBreak medA4
      (⟨G.1.page, G.1.side, G.2.2 + 1, G.1.fpo⟩ : St) 5
      (by
        show ¬ G.2.2 + 1 + 5 > breakTrigger medA4
        rw [hcy1]
        norm_num [breakTrigger, medA4]
        linarith)]
    dsimp only
    rw [multiCell_W0_one FontFamily.arialUni FontStyle.regular medA4.optionSize
      ElemKind.explanationText
      (⟨G.1.page, G.1.side, G.2.2 + 1 + 5, G.1.fpo⟩ : St) _
      (optionsWidth medA4) (r.getD "")
      (by norm_num [optionsWidth, columnWidth, medA4])
      (by
        show G.2.2 + 1 + 5 + 5 ≤ 282
        rw [hcy1]
        linarith)]
    dsimp only [setY]
    rw [hcy1, hm, if_pos hr, if_pos hr, hsplit]
    push_cast
    ring
  · rw [if_neg hr]
    dsimp only
    rw [hcy1, hm, if_neg hr, if_neg hr, hsplit]
    push_cast
    ring

/-- Witness for `C2_height_relation_amended` at three choices with an
explanation in answer-key mode. -/
theorem C2_height_relation_amended_witness :
    (["a", "b", "c"] : List String).length ≤ 80 ∧
    (drawQuestion medA4 W0 true stFresh "Q" ["a", "b", "c"] none
      (some "why")).1.y - 20 =
      measure_question_height medA4 W0 true "Q" ["a", "b", "c"] (some "why") +
        (9 / 10) * (((["a", "b", "c"] : List String).length / 2 : ℕ) : ℚ) +
        (2 / 5) * (((["a", "b", "c"] : List String).length % 2 : ℕ) : ℚ) - 1 +
        (if truthy (some "why") ∧ true then 1 else 0) :=
  ⟨by decide,
    C2_height_relation_amended "Q" ["a", "b", "c"] (some "why") true none
      (by decide)⟩

/-! ### Where drawn elements land (C1, C7) -/

theorem setY_page (st : St) (v : ℚ) : (setY st v).page = st.page := rfl

theorem setY_side (st : St) (v : ℚ) : (setY st v).side = st.side := rfl

theorem setY_y (st : St) (v : ℚ) : (setY st v).y = v := rfl

theorem cellBreak_page_le (cfg : Config) (st : St) (h : ℚ) :
    st.page ≤ (cellBreak cfg st h).page := by
  unfold cellBreak
  split
  · exact Nat.le_succ _
  · exact le_rfl

theorem cellBreak_side (cfg : Config) (st : St) (h : ℚ) :
    (cellBreak cfg st h).side = st.side := by
  unfold cellBreak
  split <;> rfl

theorem multiCellGo_page_le (cfg : Config) (kind : ElemKind) (x h : ℚ) :
    ∀ (n : ℕ) (st : St), st.page ≤ (multiCellGo cfg kind x h n st).1.page := by
  intro n
  induction n with
  | zero => intro st; exact le_rfl
  | succ n ih =>
    intro st
    simp only [multiCellGo]
    refine le_trans (cellBreak_page_le cfg st h) ?_
    have h2 := ih (setY (cellBreak cfg st h) ((cellBreak cfg st h).y + h))
    rwa [setY_page] at h2

theorem multiCellGo_side (cfg : Config) (kind : ElemKind) (x h : ℚ) :
    ∀ (n : ℕ) (st : St), (multiCellGo cfg kind x h n st).1.side = st.side := by
  intro n
  induction n with
  | zero => intro st; rfl
  | succ n ih =>
    intro st
    simp only [multiCellGo]
    rw [ih (setY (cellBreak cfg st h) ((cellBreak cfg st h).y + h)),
      setY_side]
    exact cellBreak_side cfg st h

theorem multiCellGo_elems_side (cfg : Config) (kind : ElemKind) (x h : ℚ) :
    ∀ (n : ℕ) (st : St), ∀ e ∈ (multiCellGo cfg kind x h n st).2,
      e.side = st.side := by
  intro n
  induction n with
  | zero => intro st e he; simp [multiCellGo] at he
  | succ n ih =>
    intro st e he
    simp only [multiCellGo, List.mem_cons] at he
    rcases he with he | he
    · rw [he]
      exact cellBreak_side cfg st h
    · rw [ih (setY (cellBreak cfg st h) ((cellBreak cfg st h).y + h)) e he,
        setY_side]
      exact cellBreak_side cfg st h

theorem multiCellGo_elems_page (cfg : Config) (kind : ElemKind) (x h : ℚ) :
    ∀ (n : ℕ) (st : St), (multiCellGo cfg kind x h n st).1.page = st.page →
      ∀ e ∈ (multiCellGo cfg kind x h n st).2, e.page = st.page := by
  intro n
  induction n with
  | zero => intro st _ e he; simp [multiCellGo] at he
  | succ n ih =>
    intro st hp e he
    simp only [multiCellGo] at hp he
    have h1 : st.page ≤ (cellBreak cfg st h).page := cellBreak_page_le cfg st h
    have h2 := multiCellGo_page_le cfg kind x h n
      (setY (cellBreak cfg st h) ((cellBreak cfg st h).y + h))
    rw [setY_page] at h2
    have hcb : (cellBreak cfg st h).page = st.page := by omega
    simp only [List.mem_cons] at he
    rcases he with he | he
    · rw [he]
      exact hcb
    · rw [ih (setY (cellBreak cfg st h) ((cellBreak cfg st h).y + h))
        (by rw [hp, setY_page, hcb]) e he, setY_page]
      exact hcb

theorem writeSingleOption_page_le (cfg : Config) (wf : WidthFn) (sa : Bool)
    (st : St) (x y w : ℚ) (t : String) (ia : Bool) :
    st.page ≤ (writeSingleOption cfg wf sa st x y w t ia).1.page := by
  unfold writeSingleOption multiCell
  dsimp only
  refine le_trans ?_ (multiCellGo_page_le cfg _ _ _ _ _)
  rw [setY_page]
  have h1 := cellBreak_page_le cfg (setY st y) cfg.lineHeight
  rwa [setY_page] at h1

theorem writeSingleOption_side (cfg : Config) (wf : WidthFn) (sa : Bool)
    (st : St) (x y w : ℚ) (t : String) (ia : Bool) :
    (writeSingleOption cfg wf sa st x y w t ia).1.side = st.side := by
  unfold writeSingleOption multiCell
  dsimp only
  rw [multiCellGo_side, setY_side, cellBreak_side, setY_side]

theorem writeSingleOption_elems_side (cfg : Config) (wf : WidthFn) (sa : Bool)
    (st : St) (x y w : ℚ) (t : String) (ia : Bool) :
    ∀ e ∈ (writeSingleOption cfg wf sa st x y w t ia).2.1, e.side = st.side := by
  unfold writeSingleOption multiCell
  dsimp only
  intro e he
  simp only [List.mem_cons] at he
  rcases he with he | he
  · rw [he]
    show (cellBreak cfg (setY st y) cfg.lineHeight).side = st.side
    rw [cellBreak_side, setY_side]
  · rw [multiCellGo_elems_side cfg _ _ _ _ _ e he, setY_side, cellBreak_side,
      setY_side]

theorem writeSingleOption_elems_page (cfg : Config) (wf : WidthFn) (sa : Bool)
    (st : St) (x y w : ℚ) (t : String) (ia : Bool)
    (hp : (writeSingleOption cfg wf sa st x y w t ia).1.page = st.page) :
    ∀ e ∈ (writeSingleOption cfg wf sa st x y w t ia).2.1, e.page = st.page := by
  unfold writeSingleOption multiCell at hp ⊢
  dsimp only at hp ⊢
  have h1 := cellBreak_page_le cfg (setY st y) cfg.lineHeight
  rw [setY_page] at h1
  have h2 := multiCellGo_page_le cfg ElemKind.optionText (x + 5) cfg.lineHeight
    (wrapLines (wf FontFamily.arialUni
      (if ia = true ∧ sa = true then FontStyle.bold else FontStyle.regular)
      cfg.optionSize) (w - 5 + 1)
      (if ia = true ∧ sa = true then t ++ " *" else t))
    (setY (cellBreak cfg (setY st y) cfg.lineHeight) y)
  rw [setY_page] at h2
  have hcb : (cellBreak cfg (setY st y) cfg.lineHeight).page = st.page := by
    omega
  intro e he
  simp only [List.mem_cons] at he
  rcases he with he | he
  · rw [he]
    exact hcb
  · rw [multiCellGo_elems_page cfg _ _ _ _ _
      (by rw [hp, setY_page, hcb]) e he, setY_page]
    exact hcb

theorem renderChoicesGo_page_le (cfg : Config) (wf : WidthFn) (sa : Bool)
    (ci : Option ℕ) (x : ℚ) :
    ∀ (n : ℕ) (cs : List String), cs.length ≤ n → ∀ (i : ℕ) (st : St) (cy : ℚ),
      st.page ≤ (renderChoicesGo cfg wf sa ci x cs i st cy).1.page := by
  intro n
  induction n with
  | zero =>
    intro cs h
    match cs with
    | [] => intro i st cy; exact le_rfl
  | succ n ih =>
    intro cs h
    match cs with
    | [] => intro i st cy; exact le_rfl
    | [c] =>
      intro i st cy
      simp only [renderChoicesGo]
      exact writeSingleOption_page_le cfg wf sa st x cy (optionsWidth cfg) c _
    | c :: c2 :: rest =>
      intro i st cy
      simp only [renderChoicesGo]
      by_cases hf : can_fit_two_options cfg wf c c2 = true
      · rw [if_pos hf]
        dsimp only
        refine le_trans (writeSingleOption_page_le cfg wf sa st x cy
          ((optionsWidth cfg - cfg.optionColumnGap) / 2) c
          (decide (ci = some i))) ?_
        refine le_trans (writeSingleOption_page_le cfg wf sa
          (writeSingleOption cfg wf sa st x cy
            ((optionsWidth cfg - cfg.optionColumnGap) / 2) c
            (decide (ci = some i))).1
          (x + (optionsWidth cfg - cfg.optionColumnGap) / 2 +
            cfg.optionColumnGap) cy
          ((optionsWidth cfg - cfg.optionColumnGap) / 2) c2
          (decide (ci = some (i + 1)))) ?_
        exact ih rest (by simp at h; omega) (i + 2) _ _
      · rw [if_neg hf]
        dsimp only
        refine le_trans (writeSingleOption_page_le cfg wf sa st x cy
          (optionsWidth cfg) c (decide (ci = some i))) ?_
        exact ih (c2 :: rest) (by simp at h; simp; omega) (i + 1) _ _

theorem renderChoicesGo_side (cfg : Config) (wf : WidthFn) (sa : Bool)
    (ci : Option ℕ) (x : ℚ) :
    ∀ (n : ℕ) (cs : List String), cs.length ≤ n → ∀ (i : ℕ) (st : St) (cy : ℚ),
      (renderChoicesGo cfg wf sa ci x cs i st cy).1.side = st.side := by
  intro n
  induction n with
  | zero =>
    intro cs h
    match cs with
    | [] => intro i st cy; rfl
  | succ n ih =>
    intro cs h
    match cs with
    | [] => intro i st cy; rfl
    | [c] =>
      intro i st cy
      simp only [renderChoicesGo]
      exact writeSingleOption_side cfg wf sa st x cy (optionsWidth cfg) c _
    | c :: c2 :: rest =>
      intro i st cy
      simp only [renderChoicesGo]
      by_cases hf : can_fit_two_options cfg wf c c2 = true
      · rw [if_pos hf]
        dsimp only
        rw [ih rest (by simp at h; omega) (i + 2) _ _,
          writeSingleOption_side, writeSingleOption_side]
      · rw [if_neg hf]
        dsimp only
        rw [ih (c2 :: rest) (by simp at h; simp; omega) (i + 1) _ _,
          writeSingleOption_side]

theorem renderChoicesGo_elems_side (cfg : Config) (wf : WidthFn) (sa : Bool)
    (ci : Option ℕ) (x : ℚ) :
    ∀ (n : ℕ) (cs : List String), cs.length ≤ n → ∀ (i : ℕ) (st : St) (cy : ℚ),
      ∀ e ∈ (renderChoicesGo cfg wf sa ci x cs i st cy).2.1, e.side = st.side := by
  intro n
  induction n with
  | zero =>
    intro cs h
    match cs with
    | [] => intro i st cy e he; simp [renderChoicesGo] at he
  | succ n ih =>
    intro cs h
    match cs with
    | [] => intro i st cy e he; simp [renderChoicesGo] at he
    | [c] =>
      intro i st cy e he
      simp only [renderChoicesGo] at he
      exact writeSingleOption_elems_side cfg wf sa st x cy (optionsWidth cfg)
        c _ e he
    | c :: c2 :: rest =>
      intro i st cy e he
      simp only [renderChoicesGo] at he
      by_cases hf : can_fit_two_options cfg wf c c2 = true
      · rw [if_pos hf] at he
        dsimp only at he
        simp only [List.mem_append] at he
        rcases he with (he | he) | he
        · exact writeSingleOption_elems_side cfg wf sa st x cy _ c _ e he
        · rw [writeSingleOption_elems_side cfg wf sa _ _ cy _ c2 _ e he,
            writeSingleOption_side]
        · rw [ih rest (by simp at h; omega) (i + 2) _ _ e he,
            writeSingleOption_side, writeSingleOption_side]
      · rw [if_neg hf] at he
        dsimp only at he
        simp only [List.mem_append] at he
        rcases he with he | he
        · exact writeSingleOption_elems_side cfg wf sa st x cy _ c _ e he
        · rw [ih (c2 :: rest) (by simp at h; simp; omega) (i + 1) _ _ e he,
            writeSingleOption_side]

theorem renderChoicesGo_elems_page (cfg : Config) (wf : WidthFn) (sa : Bool)
    (ci : Option ℕ) (x : ℚ) :
    ∀ (n : ℕ) (cs : List String), cs.length ≤ n → ∀ (i : ℕ) (st : St) (cy : ℚ),
      (renderChoicesGo cfg wf sa ci x cs i st cy).1.page = st.page →
      ∀ e ∈ (renderChoicesGo cfg wf sa ci x cs i st cy).2.1, e.page = st.page := by
  intro n
  induction n with
  | zero =>
    intro cs h
    match cs with
    | [] => intro i st cy _ e he; simp [renderChoicesGo] at he
  | succ n ih =>
    intro cs h
    match cs with
    | [] => intro i st cy _ e he; simp [renderChoicesGo] at he
    | [c] =>
      intro i st cy hp e he
      simp only [renderChoicesGo] at hp he
      exact writeSingleOption_elems_page cfg wf sa st x cy (optionsWidth cfg)
        c _ hp e he
    | c :: c2 :: rest =>
      intro i st cy hp e he
      have hr1 := writeSingleOption_page_le cfg wf sa st x cy
        ((optionsWidth cfg - cfg.optionColumnGap) / 2) c (ci = some i)
      simp only [renderChoicesGo] at hp he
      by_cases hf : can_fit_two_options cfg wf c c2 = true
      · rw [if_pos hf] at hp he
        dsimp only at hp he
        have h1 := writeSingleOption_page_le cfg wf sa st x cy
          ((optionsWidth cfg - cfg.optionColumnGap) / 2) c (ci = some i)
        have h2 := writeSingleOption_page_le cfg wf sa
          (writeSingleOption cfg wf sa st x cy
            ((optionsWidth cfg - cfg.optionColumnGap) / 2) c (ci = some i)).1
          (x + (optionsWidth cfg - cfg.optionColumnGap) / 2 + cfg.optionColumnGap)
          cy ((optionsWidth cfg - cfg.optionColumnGap) / 2) c2 (ci = some (i + 1))
        have h3 := renderChoicesGo_page_le cfg wf sa ci x rest.length rest
          (le_refl rest.length) (i + 2)
          (writeSingleOption cfg wf sa
            (writeSingleOption cfg wf sa st x cy
              ((optionsWidth cfg - cfg.optionColumnGap) / 2) c (ci = some i)).1
            (x + (optionsWidth cfg - cfg.optionColumnGap) / 2 +
              cfg.optionColumnGap) cy
            ((optionsWidth cfg - cfg.optionColumnGap) / 2) c2
            (ci = some (i + 1))).1
          (cy + max (writeSingleOption cfg wf sa st x cy
              ((optionsWidth cfg - cfg.optionColumnGap) / 2) c
              (ci = some i)).2.2
            (writeSingleOption cfg wf sa
              (writeSingleOption cfg wf sa st x cy
                ((optionsWidth cfg - cfg.optionColumnGap) / 2) c
                (ci = some i)).1
              (x + (optionsWidth cfg - cfg.optionColumnGap) / 2 +
                cfg.optionColumnGap) cy
              ((optionsWidth cfg - cfg.optionColumnGap) / 2) c2
              (ci = some (i + 1))).2.2 + 1)
        simp only [List.mem_append] at he
        rcases he with (he | he) | he
        · exact writeSingleOption_elems_page cfg wf sa st x cy _ c _
            (by omega) e he
        · rw [writeSingleOption_elems_page cfg wf sa _ _ cy _ c2 _
            (by omega) e he]
          omega
        · rw [ih rest (by simp at h; omega) (i + 2) _ _ (by omega) e he]
          omega
      · rw [if_neg hf] at hp he
        dsimp only at hp he
        have h1 := writeSingleOption_page_le cfg wf sa st x cy
          (optionsWidth cfg) c (ci = some i)
        have h2 := renderChoicesGo_page_le cfg wf sa ci x (c2 :: rest).length
          (c2 :: rest) (le_refl _) (i + 1)
          (writeSingleOption cfg wf sa st x cy (optionsWidth cfg) c
            (ci = some i)).1
          (cy + (writeSingleOption cfg wf sa st x cy (optionsWidth cfg) c
            (ci = some i)).2.2 + 1)
        simp only [List.mem_append] at he
        rcases he with he | he
        · exact writeSingleOption_elems_page cfg wf sa st x cy _ c _
            (by omega) e he
        · rw [ih (c2 :: rest) (by simp at h; simp; omega) (i + 1) _ _
            (by omega) e he]
          omega

theorem drawQuestion_elems (cfg : Config) (wf : WidthFn) (sa : Bool) (st : St)
    (qt : String) (cs : List String) (ci : Option ℕ) (r : Option String)
    (hp : (drawQuestion cfg wf sa st qt cs ci r).1.page = st.page) :
    ∀ e ∈ (drawQuestion cfg wf sa st qt cs ci r).2,
      e.page = st.page ∧ e.side = st.side := by
  unfold drawQuestion multiCell at hp ⊢
  dsimp only at hp ⊢
  set XQ := (if st.side = Side.left then 10 else cfg.pageW / 2 + 2) +
    cfg.questionNumberWidth + 1 with hXQ
  set nQ := wrapLines (wf FontFamily.arialUni FontStyle.italic cfg.questionSize)
    (questionWidth cfg) qt with hnQ
  set nR := wrapLines (wf FontFamily.arialUni FontStyle.regular cfg.optionSize)
    (optionsWidth cfg) (r.getD "") with hnR
  set stN := cellBreak cfg (setY st st.y) 5 with hstN
  set rQ := multiCellGo cfg ElemKind.questionText XQ cfg.lineHeight nQ
    (setY stN st.y) with hrQ
  set rC := renderChoicesGo cfg wf sa ci (XQ + 2) cs 0 rQ.1 (rQ.1.y + 1)
    with hrC
  set stRL := cellBreak cfg (setY rC.1 (rC.2.2 + 1)) 5 with hstRL
  set rR := multiCellGo cfg ElemKind.explanationText (XQ + 2) cfg.lineHeight nR
    (setY stRL (rC.2.2 + 1 + 5)) with hrR
  have h0 : st.page ≤ stN.page := by
    rw [hstN]
    have h := cellBreak_page_le cfg (setY st st.y) 5
    rwa [setY_page] at h
  have h1 : stN.page ≤ rQ.1.page := by
    rw [hrQ]
    have h := multiCellGo_page_le cfg ElemKind.questionText XQ cfg.lineHeight
      nQ (setY stN st.y)
    rwa [setY_page] at h
  have h2 : rQ.1.page ≤ rC.1.page := by
    rw [hrC]
    exact renderChoicesGo_page_le cfg wf sa ci (XQ + 2) cs.length cs le_rfl 0
      rQ.1 (rQ.1.y + 1)
  have s0 : stN.side = st.side := by
    rw [hstN, cellBreak_side, setY_side]
  have s1 : rQ.1.side = st.side := by
    rw [hrQ, multiCellGo_side, setY_side, s0]
  have s2 : rC.1.side = st.side := by
    rw [hrC, renderChoicesGo_side cfg wf sa ci (XQ + 2) cs.length cs le_rfl 0
      rQ.1 (rQ.1.y + 1), s1]
  by_cases hr : truthy r = true ∧ sa = true
  · rw [if_pos hr] at hp ⊢
    rw [setY_page] at hp
    have h3 : rC.1.page ≤ stRL.page := by
      rw [hstRL]
      have h := cellBreak_page_le cfg (setY rC.1 (rC.2.2 + 1)) 5
      rwa [setY_page] at h
    have h4 : stRL.page ≤ rR.1.page := by
      rw [hrR]
      have h := multiCellGo_page_le cfg ElemKind.explanationText (XQ + 2)
        cfg.lineHeight nR (setY stRL (rC.2.2 + 1 + 5))
      rwa [setY_page] at h
    have s3 : stRL.side = st.side := by
      rw [hstRL, cellBreak_side, setY_side, s2]
    intro e he
    simp only [List.mem_cons, List.mem_append] at he
    rcases he with ((he | he) | he) | (he | he)
    · rw [he]
      exact ⟨by dsimp; omega, by dsimp; rw [s0]⟩
    · constructor
      · have h := multiCellGo_elems_page cfg ElemKind.questionText XQ
          cfg.lineHeight nQ (setY stN st.y) (by rw [setY_page, ← hrQ]; omega)
          e he
        rw [setY_page] at h
        omega
      · have h := multiCellGo_elems_side cfg ElemKind.questionText XQ
          cfg.lineHeight nQ (setY stN st.y) e he
        rwa [setY_side, s0] at h
    · constructor
      · have h := renderChoicesGo_elems_page cfg wf sa ci (XQ + 2) cs.length
          cs le_rfl 0 rQ.1 (rQ.1.y + 1) (by rw [← hrC]; omega) e he
        omega
      · have h := renderChoicesGo_elems_side cfg wf sa ci (XQ + 2) cs.length
          cs le_rfl 0 rQ.1 (rQ.1.y + 1) e he
        rwa [s1] at h
    · rw [he]
      exact ⟨by dsimp; omega, by dsimp; rw [s3]⟩
    · constructor
      · have h := multiCellGo_elems_page cfg ElemKind.explanationText (XQ + 2)
          cfg.lineHeight nR (setY stRL (rC.2.2 + 1 + 5))
          (by rw [setY_page, ← hrR]; omega) e he
        rw [setY_page] at h
        omega
      · have h := multiCellGo_elems_side cfg ElemKind.explanationText (XQ + 2)
          cfg.lineHeight nR (setY stRL (rC.2.2 + 1 + 5)) e he
        rwa [setY_side, s3] at h
  · rw [if_neg hr] at hp ⊢
    rw [setY_page] at hp
    intro e he
    simp only [List.mem_cons, List.mem_append] at he
    rcases he with (he | he) | he
    · rw [he]
      exact ⟨by dsimp; omega, by dsimp; rw [s0]⟩
    · constructor
      · have h := multiCellGo_elems_page cfg ElemKind.questionText XQ
          cfg.lineHeight nQ (setY stN st.y) (by rw [setY_page, ← hrQ]; omega)
          e he
        rw [setY_page] at h
        omega
      · have h := multiCellGo_elems_side cfg ElemKind.questionText XQ
          cfg.lineHeight nQ (setY stN st.y) e he
        rwa [setY_side, s0] at h
    · constructor
      · have h := renderChoicesGo_elems_page cfg wf sa ci (XQ + 2) cs.length
          cs le_rfl 0 rQ.1 (rQ.1.y + 1) (by rw [← hrC]; omega) e he
        omega
      · have h := renderChoicesGo_elems_side cfg wf sa ci (XQ + 2) cs.length
          cs le_rfl 0 rQ.1 (rQ.1.y + 1) e he
        rwa [s1] at h

theorem drawQuestion_side_eq (cfg : Config) (wf : WidthFn) (sa : Bool)
    (st : St) (qt : String) (cs : List String) (ci : Option ℕ)
    (r : Option String) :
    (drawQuestion cfg wf sa st qt cs ci r).1.side = st.side := by
  unfold drawQuestion multiCell
  dsimp only
  by_cases hr : truthy r = true ∧ sa = true
  · rw [if_pos hr]
    rw [setY_side, multiCellGo_side, setY_side, cellBreak_side, setY_side,
      renderChoicesGo_side cfg wf sa ci _ cs.length cs le_rfl 0 _ _,
      multiCellGo_side, setY_side, cellBreak_side, setY_side]
  · rw [if_neg hr]
    rw [setY_side,
      renderChoicesGo_side cfg wf sa ci _ cs.length cs le_rfl 0 _ _,
      multiCellGo_side, setY_side, cellBreak_side, setY_side]

/-- C1 (corrected): once the placement recursion has settled on a state
and no automatic page break fires while drawing (equivalently, the
canvas page after drawing equals the placed page), every drawn element
of the question — the number cell, each question-text line, each option
label and option-text line, and the explanation block in answer-key
mode — carries the placed state's page and column side. The pre-draw
height check alone does not guarantee the no-break condition, because
the estimate can undershoot the drawn height (C2). -/
theorem C1_question_elements_amended (cfg : Config) (wf : WidthFn) (sa : Bool)
    (fuel : ℕ) (st : St) (qt : String) (cs : List String) (ci : Option ℕ)
    (r : Option String) (stP : St)
    (hplace : placeQuestion cfg fuel st
      (measure_question_height cfg wf sa qt cs r + 5) = some stP)
    (hnobreak : (drawQuestion cfg wf sa stP qt cs ci r).1.page = stP.page) :
    addQuestion cfg wf sa fuel st qt cs ci r =
      some ((drawQuestion cfg wf sa stP qt cs ci r).2,
        (drawQuestion cfg wf sa stP qt cs ci r).1) ∧
    ∀ e ∈ (drawQuestion cfg wf sa stP qt cs ci r).2,
      e.page = stP.page ∧ e.side = stP.side := by
  constructor
  · simp only [addQuestion, hplace, Option.map_some']
  · exact drawQuestion_elems cfg wf sa stP qt cs ci r hnobreak

/-- Witness for `C1_question_elements_amended`: a two-choice question
placed at the top of a fresh column under the unit-width metric. -/
theorem C1_question_elements_amended_witness :
    placeQuestion medA4 0 stFresh
      (measure_question_height medA4 W1 false "Q" ["a", "b"] none + 5) =
      some stFresh ∧
    (drawQuestion medA4 W1 false stFresh "Q" ["a", "b"] none none).1.page =
      stFresh.page ∧
    (addQuestion medA4 W1 false 0 stFresh "Q" ["a", "b"] none none =
      some ((drawQuestion medA4 W1 false stFresh "Q" ["a", "b"] none none).2,
        (drawQuestion medA4 W1 false stFresh "Q" ["a", "b"] none none).1) ∧
    ∀ e ∈ (drawQuestion medA4 W1 false stFresh "Q" ["a", "b"] none none).2,
      e.page = stFresh.page ∧ e.side = stFresh.side) :=
  ⟨by decide, by decide,
    C1_question_elements_amended medA4 W1 false 0 stFresh "Q" ["a", "b"]
      none none stFresh (by decide) (by decide)⟩

set_option maxRecDepth 8000 in
/-- C1 counterexample: a 26-choice question (every choice forced onto
its own full-width line by a 40mm-wide metric) passes the placement
check at `y = 121.2` on page 2 with 0.2mm to spare, but its actual
height exceeds the estimate by 10.4mm, so fpdf's automatic page break
fires inside the option list: the drawn elements of this single
question land on pages 2, 3 and 4. -/
theorem C1_question_split_counterexample :
    ((addQuestion medA4 W40 false 5 stLow "Q" (List.replicate 26 "x") none
      none).map (fun res => (res.1.map Elem.page).dedup)) = some [2, 3, 4] := by
  decide

theorem placeQuestion_fits (cfg : Config) (fuel : ℕ) (st : St) (total : ℚ)
    (h : total ≤ cfg.pageH - (MIN_FOOTER_BUFFER + 5) - st.y) :
    placeQuestion cfg fuel st total = some st := by
  unfold placeQuestion
  rw [if_pos h]

set_option maxRecDepth 8000 in
/-- C7 counterexample: on page 2, left column, at `y = 246`,
`add_section` keeps the header and its 13.1mm first question together
(`246 + 6 + 16 + 13.1 ≤ 282`, its 15mm reserve) and draws the header
ending at `y = 268`; `add_question` then re-checks the same question
against its own stricter margin (`13.1 + 5 > 280 - 268`) and moves it
to the right column — the section header is left as the last element of
the left column, exactly what the claim says cannot happen. -/
theorem C7_orphaned_header_counterexample :
    ((generateFirstUnit medA4 W0 false 5 stOrphan "Sec" "Desc" "Q" ["p", "q"]
        none none).map (fun res =>
      ((res.1.map fun e => (e.page, e.side)).dedup,
        (res.2.1.map fun e => (e.page, e.side)).dedup))) =
      some ([(2, Side.left)], [(2, Side.right)]) := by
  decide

/-- C7 (corrected): the header + first-question unit is checked before
the header is drawn, but with `add_section`'s 15mm reserve and no
buffer, while `add_question` re-checks with a 17mm reserve plus a 5mm
buffer — so the invariant only holds when the first question also
passes `add_question`'s margin at the post-header cursor (and no
automatic page break fires while drawing it); in that case the first
question is drawn at the very state the header left, on the header's
page and column. -/
theorem C7_header_followed_by_question_amended (cfg : Config) (wf : WidthFn)
    (sa : Bool) (fuel : ℕ) (st : St) (sectionName description : String)
    (qt : String) (cs : List String) (ci : Option ℕ) (r : Option String)
    (hfit : measure_question_height cfg wf sa qt cs r + 5 ≤
      cfg.pageH - (MIN_FOOTER_BUFFER + 5) -
        (addSection cfg wf st sectionName description
          (measure_question_height cfg wf sa qt cs r)).1.y)
    (hnobreak : (drawQuestion cfg wf sa
        (addSection cfg wf st sectionName description
          (measure_question_height cfg wf sa qt cs r)).1 qt cs ci r).1.page =
      (addSection cfg wf st sectionName description
        (measure_question_height cfg wf sa qt cs r)).1.page) :
    generateFirstUnit cfg wf sa fuel st sectionName description qt cs ci r =
      some ((addSection cfg wf st sectionName description
          (measure_question_height cfg wf sa qt cs r)).2,
        (drawQuestion cfg wf sa
          (addSection cfg wf st sectionName description
            (measure_question_height cfg wf sa qt cs r)).1 qt cs ci r).2,
        (drawQuestion cfg wf sa
          (addSection cfg wf st sectionName description
            (measure_question_height cfg wf sa qt cs r)).1 qt cs ci r).1) ∧
    ∀ e ∈ (drawQuestion cfg wf sa
        (addSection cfg wf st sectionName description
          (measure_question_height cfg wf sa qt cs r)).1 qt cs ci r).2,
      e.page = (addSection cfg wf st sectionName description
          (measure_question_height cfg wf sa qt cs r)).1.page ∧
        e.side = (addSection cfg wf st sectionName description
          (measure_question_height cfg wf sa qt cs r)).1.side := by
  constructor
  · simp only [generateFirstUnit, addQuestion,
      placeQuestion_fits cfg fuel
        (addSection cfg wf st sectionName description
          (measure_question_height cfg wf sa qt cs r)).1
        (measure_question_height cfg wf sa qt cs r + 5) hfit,
      Option.map_some']
  · exact drawQuestion_elems cfg wf sa
      (addSection cfg wf st sectionName description
        (measure_question_height cfg wf sa qt cs r)).1 qt cs ci r hnobreak

/-- Witness for `C7_header_followed_by_question_amended`: a short
section header at the top of a fresh column, followed by a two-choice
question that passes the re-check. -/
theorem C7_header_followed_by_question_amended_witness :
    (measure_question_height medA4 W1 false "Q" ["a", "b"] none + 5 ≤
      medA4.pageH - (MIN_FOOTER_BUFFER + 5) -
        (addSection medA4 W1 stFresh "S" "D"
          (measure_question_height medA4 W1 false "Q" ["a", "b"] none)).1.y) ∧
    ((drawQuestion medA4 W1 false
        (addSection medA4 W1 stFresh "S" "D"
          (measure_question_height medA4 W1 false "Q" ["a", "b"] none)).1
        "Q" ["a", "b"] none none).1.page =
      (addSection medA4 W1 stFresh "S" "D"
        (measure_question_height medA4 W1 false "Q" ["a", "b"] none)).1.page) ∧
    (∀ e ∈ (drawQuestion medA4 W1 false
        (addSection medA4 W1 stFresh "S" "D"
          (measure_question_height medA4 W1 false "Q" ["a", "b"] none)).1
        "Q" ["a", "b"] none none).2,
      e.page = (addSection medA4 W1 stFresh "S" "D"
          (measure_question_height medA4 W1 false "Q" ["a", "b"] none)).1.page ∧
        e.side = (addSection medA4 W1 stFresh "S" "D"
          (measure_question_height medA4 W1 false "Q" ["a", "b"] none)).1.side) :=
  ⟨by decide, by decide,
    (C7_header_followed_by_question_amended medA4 W1 false 3 stFresh "S" "D"
      "Q" ["a", "b"] none none (by decide) (by decide)).2⟩

end PaperGen
